import Mathlib

/-!
Verification of the webpack chunk reverse-engineering core (`src/index.ts`,
`src/ast.ts`) against its specification.

The development shallowly embeds the pipeline over a Babel-style untyped
syntax tree:

* `J` / `JList` model the Babel AST nodes the core inspects and builds
  (identifiers, literals, object expressions, calls, member expressions,
  assignments, functions, and the declaration forms the rewrite emits).
* Binding lookups (`Scope.hasBinding`) are modelled by threading the list of
  names bound by enclosing functions, blocks, variable declarations and by
  the import declarations through each traversal, as the source uses
  `path.scope.hasBinding` on a module file whose factory parameters are out
  of scope.
* Each Babel visitor from the source is translated into a structurally
  recursive function over the tree; pre-order visit order and the visitor
  side conditions are kept.
* External collaborators (the JavaScript text parser and the `reserved`
  word list package) are not part of the repository; the parser is a
  parameter of the chunk splitter and the reserved list is modelled from
  the spec.
-/

namespace WebpackRe

/-! ## The syntax tree

A single untyped node type, as in Babel: the source distinguishes node kinds
with `isIdentifier`, `isObjectExpression`, ... predicates, so the embedding
keeps all kinds in one inductive and mirrors those predicates with pattern
matches.  `JList` is a dedicated list type so that all recursions are
structural (and hence compute by `rfl`/`decide`).

`declarator` and `ret` store their optional child as a `JList` that is
empty (absent) or a singleton (present).
-/

mutual
inductive J where
  | ident (name : String)
  | num (n : Nat)
  | str (s : String)
  | objE (props : JList)
  | objProp (key : J) (value : J)
  | otherProp (tag : String)
  | call (callee : J) (args : JList)
  | member (obj : J) (prop : J) (computed : Bool)
  | assign (op : String) (left : J) (right : J)
  | arrow (isAsync : Bool) (params : JList) (body : J)
  | fnExpr (isAsync : Bool) (params : JList) (body : J)
  | awaitE (arg : J)
  | importE (arg : J)
  | seqE (exprs : JList)
  | exprStmt (e : J)
  | varDecl (kind : String) (decls : JList)
  | declarator (id : J) (init : JList)
  | block (body : JList)
  | ret (arg : JList)
  | importDecl (specs : JList) (source : String)
  | importDefaultSpec (lname : String)
  | importNamespaceSpec (lname : String)
  | importSpec (lname : String) (imported : String)
  | exportDefaultDecl (e : J)
  | exportNamedDecl (specs : JList)
  | exportSpec (lname : String) (exported : String)
  | otherNode (tag : String)
inductive JList where
  | nil
  | cons (hd : J) (tl : JList)
end

def JList.append : JList → JList → JList
  | .nil, l => l
  | .cons h t, l => .cons h (JList.append t l)

def JList.toList : JList → List J
  | .nil => []
  | .cons h t => h :: JList.toList t

def JList.ofList : List J → JList
  | [] => .nil
  | h :: t => .cons h (JList.ofList t)

/-- Mirrors `@babel/types.isObjectExpression` where the source needs it. -/
def J.isObjE : J → Bool
  | .objE _ => true
  | _ => false

/-! ## Scope modelling

The module file handed to both passes is the factory body re-rooted as a
program, so the factory parameters are never bound inside it; `hasBinding`
is modelled by a list of names declared by enclosing structure.  The names
a statement contributes to its enclosing scope are its variable-declarator
identifiers and its import-specifier locals; a function scope additionally
binds its identifier parameters.
-/

def declaratorNames : JList → List String
  | .nil => []
  | .cons (.declarator (.ident n) _) t => n :: declaratorNames t
  | .cons _ t => declaratorNames t

def importLocalNames : JList → List String
  | .nil => []
  | .cons (.importDefaultSpec l) t => l :: importLocalNames t
  | .cons (.importNamespaceSpec l) t => l :: importLocalNames t
  | .cons (.importSpec l _) t => l :: importLocalNames t
  | .cons _ t => importLocalNames t

def stmtBound : J → List String
  | .varDecl _ ds => declaratorNames ds
  | .importDecl specs _ => importLocalNames specs
  | _ => []

def blockBound : JList → List String
  | .nil => []
  | .cons s t => stmtBound s ++ blockBound t

def paramNames : JList → List String
  | .nil => []
  | .cons (.ident n) t => n :: paramNames t
  | .cons _ t => paramNames t

/-- Names bound inside a function with the given parameters and body. -/
def funBound (params : JList) (body : J) : List String :=
  paramNames params ++ (match body with
    | .block ss => blockBound ss
    | _ => [])

/-! ## Factory parameter slots (`chunkModuleParams`)

`chunkModuleParams` is a JavaScript array of strings filled lazily; reading
an unfilled index yields `undefined`.  It is modelled as a list of
`Option String` with JavaScript truthiness (`some ""` is falsy, like the
source's `if (chunkModuleParams[i])` test).
-/

abbrev Slots := List (Option String)

def getSlot (s : Slots) (i : Nat) : Option String :=
  (s.get? i).join

def setSlot : Slots → Nat → String → Slots
  | [], 0, n => [some n]
  | [], i + 1, n => none :: setSlot [] i n
  | _ :: t, 0, n => some n :: t
  | h :: t, i + 1, n => h :: setSlot t i n

def slotTruthy (o : Option String) : Bool :=
  match o with
  | some s => s ≠ ""
  | none => false

/-- The factory-parameter loop of `splitWebpackChunk` (src/index.ts:218-234):
each parameter must be an identifier; a filled slot must agree with the
parameter name, an unfilled slot is fixed to it.  Returns the updated slots
together with whether the module was accepted; on rejection the slots
already updated by earlier parameters of the same module are kept, exactly
as the mutation-then-`continue chunkModulesLoop` control flow does. -/
def validateParams (slots : Slots) (i : Nat) : JList → Slots × Bool
  | .nil => (slots, true)
  | .cons p rest =>
    match p with
    | .ident n =>
      if slotTruthy (getSlot slots i) then
        if getSlot slots i = some n then
          validateParams slots (i + 1) rest
        else
          (slots, false)
      else
        validateParams (setSlot slots i n) (i + 1) rest
    | _ => (slots, false)

/-! ## Module id resolution (`resolveModule`, src/index.ts:81-97) -/

/-- A raw module key as the source receives it (`string | number`). -/
inductive ModKey where
  | str (s : String)
  | num (n : Nat)

def ModKey.toStr : ModKey → String
  | .str s => s
  | .num n => toString n

structure ModuleTransformations where
  renameModule : Option String := none
  importAsAbsolute : Option Bool := none
  renameVariables : List (Nat × String) := []

abbrev ChunkModulesTransformations := List (String × ModuleTransformations)

def lookupMT (mts : ChunkModulesTransformations) (k : String) :
    Option ModuleTransformations :=
  mts.lookup k

def truthyStr : Option String → Bool
  | some s => s ≠ ""
  | none => false

def truthyBool : Option Bool → Bool
  | some b => b
  | none => false

/-- `resolveModule` from src/index.ts:81-97: looks up the module key in the
per-chunk transformation map (JavaScript property access stringifies the
key), honours a truthy `renameModule` together with `importAsAbsolute`,
and otherwise falls back to the stringified key with a `./` prefix. -/
def resolveModule (moduleId : ModKey)
    (moduleTransformations : Option ChunkModulesTransformations) :
    String × String :=
  match moduleTransformations.bind (fun m => lookupMT m moduleId.toStr) with
  | some t =>
    match t.renameModule with
    | some r =>
      if r ≠ "" then
        (r, if truthyBool t.importAsAbsolute then r else "./" ++ r)
      else
        (moduleId.toStr, "./" ++ moduleId.toStr)
    | none => (moduleId.toStr, "./" ++ moduleId.toStr)
  | none => (moduleId.toStr, "./" ++ moduleId.toStr)

/-! ## Collision-safe rename (`rename`, src/ast.ts:140-180)

`Scope.rename` only mutates the per-scope symbol table (and the tree's
occurrences); the table is modelled as the list of bound names.  The
result is the new table, the returned name (`null` encoded as `none`) and
whether the already-bound warning was emitted.
-/

/-- Modelled from the spec: the external `reserved` package, the list of
JavaScript reserved words consulted before renaming (§4.6 "falling back to
a reserved-word-safe prefixed variant"). -/
def reservedWords : List String :=
  ["abstract", "arguments", "await", "boolean", "break", "byte", "case",
   "catch", "char", "class", "const", "continue", "debugger", "default",
   "delete", "do", "double", "else", "enum", "eval", "export", "extends",
   "false", "final", "finally", "float", "for", "function", "goto", "if",
   "implements", "import", "in", "instanceof", "int", "interface", "let",
   "long", "native", "new", "null", "package", "private", "protected",
   "public", "return", "short", "static", "super", "switch", "synchronized",
   "this", "throw", "throws", "transient", "true", "try", "typeof", "var",
   "void", "volatile", "while", "with", "yield"]

/-- The reserved-word prefixing step of `rename`. -/
def effectiveTarget (rn : String) : String :=
  if reservedWords.contains rn then "_" ++ rn else rn

/-- `rename` from src/ast.ts:140-180 on the scope symbol table: falsy
target is a silent no-op; a reserved target is `_`-prefixed; renaming to
the original name is a silent no-op; a target already bound warns and
mutates nothing; otherwise the binding is renamed. -/
def renameOp (scope : List String) (originalName : String)
    (renameTo : Option String) : List String × Option String × Bool :=
  match renameTo with
  | none => (scope, none, false)
  | some rn =>
    if rn = "" then (scope, none, false)
    else
      let rn := effectiveTarget rn
      if originalName = rn then (scope, none, false)
      else if scope.contains rn then (scope, none, true)
      else (scope.map fun x => if x = originalName then rn else x,
            some rn, false)

/-! ## Import-call and default-export recognition (src/ast.ts:71-138) -/

def J.isIdentNamed (e : J) (n : String) : Bool :=
  match e with
  | .ident m => m = n
  | _ => false

/-- `parseImportCall` from src/ast.ts:98-138: a call whose callee is an
identifier equal to the require slot (`chunkModuleParams[2]`) and unbound
in the call's scope, with exactly one numeric- or string-literal argument;
yields the stringified raw module id. -/
def parseImportCall (bound : List String) (slots : Slots) : J → Option String
  | .call (.ident c) args =>
    if some c = getSlot slots 2 then
      if c ∈ bound then none
      else
        match args with
        | .cons a .nil =>
          match a with
          | .num n => some (toString n)
          | .str s => some s
          | _ => none
        | _ => none
    else none
  | _ => none

/-- `getDefaultExport` from src/ast.ts:71-96 together with its warning: an
assignment whose left side is `<slot0>.exports` with slot0 unbound is a
default-export candidate when its operator is `=`; with any other operator
the invalid-operator warning is emitted (second component) and no export is
returned; any other shape returns `none` silently. -/
def getDefaultExportW (bound : List String) (slots : Slots) : J → Option J × Bool
  | .assign op (.member (.ident o) p _) rhs =>
    if some o = getSlot slots 0 ∧ o ∉ bound ∧ p.isIdentNamed "exports" then
      if op = "=" then (some rhs, false) else (none, true)
    else (none, false)
  | _ => (none, false)

def getDefaultExport (bound : List String) (slots : Slots) (e : J) : Option J :=
  (getDefaultExportW bound slots e).1

/-! ## Pass 1: the import and export scan (src/index.ts:249-335)

The `AssignmentExpression` visitor of the scan traversal folds a state
(`isCommonJS`, `hasDefaultExport`) over every assignment node in pre-order
visit order.  The visitor does not mutate the tree, so the traversal is
embedded as: collect every assignment node together with the bound names
at its position, then fold the visitor body over the collected list. -/

mutual
/-- All assignment nodes of a node, pre-order, with the names bound at
their position. -/
def collectAssignsE (bound : List String) : J → List (List String × J)
  | .ident _ => []
  | .num _ => []
  | .str _ => []
  | .objE props => collectAssignsL bound props
  | .objProp k v => collectAssignsE bound k ++ collectAssignsE bound v
  | .otherProp _ => []
  | .call c a => collectAssignsE bound c ++ collectAssignsL bound a
  | .member o pr _ => collectAssignsE bound o ++ collectAssignsE bound pr
  | .assign op l r =>
    (bound, .assign op l r) :: (collectAssignsE bound l ++ collectAssignsE bound r)
  | .arrow _ params body =>
    (match body with
     | .block ss => collectAssignsL (bound ++ paramNames params ++ blockBound ss) ss
     | e => collectAssignsE (bound ++ paramNames params) e)
  | .fnExpr _ params body =>
    (match body with
     | .block ss => collectAssignsL (bound ++ paramNames params ++ blockBound ss) ss
     | e => collectAssignsE (bound ++ paramNames params) e)
  | .awaitE a => collectAssignsE bound a
  | .importE a => collectAssignsE bound a
  | .seqE es => collectAssignsL bound es
  | .exprStmt e => collectAssignsE bound e
  | .varDecl _ ds => collectAssignsL bound ds
  | .declarator i init => collectAssignsE bound i ++ collectAssignsL bound init
  | .block body => collectAssignsL (bound ++ blockBound body) body
  | .ret a => collectAssignsL bound a
  | .importDecl _ _ => []
  | .importDefaultSpec _ => []
  | .importNamespaceSpec _ => []
  | .importSpec _ _ => []
  | .exportDefaultDecl e => collectAssignsE bound e
  | .exportNamedDecl _ => []
  | .exportSpec _ _ => []
  | .otherNode _ => []
def collectAssignsL (bound : List String) : JList → List (List String × J)
  | .nil => []
  | .cons h t => collectAssignsE bound h ++ collectAssignsL bound t
end

/-- The body of the scan's `AssignmentExpression` visitor
(src/index.ts:312-334): on a candidate, a second candidate or an
object-literal right-hand side switches the module to CommonJS, and the
has-default-export flag is set.  State is `(isCommonJS, hasDefaultExport)`. -/
def scanStep (slots : Slots) (st : Bool × Bool) (a : List String × J) :
    Bool × Bool :=
  match getDefaultExport a.1 slots a.2 with
  | none => st
  | some rhs =>
    (if st.2 then true else if rhs.isObjE then true else st.1, true)

/-- The default-export candidates (right-hand sides) the scan sees, in
visit order. -/
def scanCandidates (slots : Slots) (l : List (List String × J)) : List J :=
  l.filterMap fun a => getDefaultExport a.1 slots a.2

/-- Pass 1 of `splitWebpackChunk` for one module: the module file is the
factory body as a program, so the program-level bindings are its own
declarations.  Result `(isCommonJS, hasDefaultExport)`. -/
def scanModule (slots : Slots) (prog : JList) : Bool × Bool :=
  (collectAssignsL (blockBound prog) prog).foldl (scanStep slots) (false, false)

def moduleCandidates (slots : Slots) (prog : JList) : List J :=
  scanCandidates slots (collectAssignsL (blockBound prog) prog)

/-! ## The chunk wrapper matcher (src/index.ts:121-130)

The source recognizes the wrapper with the regular expression

  (\x28(self\.webpackChunk(\w*))=\2\|\|\[\]\x29\.push\x28)\[\[(\d+)\],(\x7b.+\x7d)]\x29;

with the dot-matches-newline flag.  The pattern is deterministic up to
greediness: `\w*` must be the maximal word run (the following `=` is not a
word character), `\d+` the maximal digit run (followed by `]`), and the
greedy `.+` ends at the last closing brace that is followed by the closing
bracket-paren-semicolon, searched from the leftmost match position.  The
match is embedded as a direct character-list scanner implementing exactly
those semantics; capture group 4 (the chunk id digits) and group 5 (the
brace-delimited table text) are returned. -/

def isWordChar (c : Char) : Bool := c.isAlphanum || c = '_'

def natOfDigits (l : List Char) : Nat :=
  l.foldl (fun a c => 10 * a + (c.toNat - 48)) 0

/-- Strips an expected literal prefix. -/
def stripPre : List Char → List Char → Option (List Char)
  | [], s => some s
  | _ :: _, [] => none
  | c :: p, d :: s => if c = d then stripPre p s else none

/-- Maximal run of word characters (`\w*`). -/
def wordSpan : List Char → List Char × List Char
  | [] => ([], [])
  | c :: rest =>
    if isWordChar c then
      let (w, r) := wordSpan rest
      (c :: w, r)
    else ([], c :: rest)

/-- Maximal run of decimal digits (`\d+` before a non-digit). -/
def digitSpan : List Char → List Char × List Char
  | [] => ([], [])
  | c :: rest =>
    if c.isDigit then
      let (w, r) := digitSpan rest
      (c :: w, r)
    else ([], c :: rest)

/-- Longest prefix whose remainder starts with the four characters
closing-brace, `]`, `)`, `;` — the greedy `.+` before the pattern tail. -/
def lastCloseSplit : List Char → Option (List Char)
  | [] => none
  | c :: rest =>
    match lastCloseSplit rest with
    | some core => some (c :: core)
    | none =>
      match c, rest with
      | '}', ']' :: ')' :: ';' :: _ => some []
      | _, _ => none

structure ChunkTextMatch where
  chunkIdDigits : List Char
  table : List Char
  deriving DecidableEq

/-- One attempt of the wrapper pattern at a fixed position. -/
def matchChunkAt (s : List Char) : Option ChunkTextMatch :=
  match stripPre ("(self.webpackChunk".toList) s with
  | none => none
  | some s1 =>
    let ws := wordSpan s1
    match stripPre ('=' :: ("self.webpackChunk".toList ++ ws.1)) ws.2 with
    | none => none
    | some s2 =>
      match stripPre ("||[]).push([[".toList) s2 with
      | none => none
      | some s3 =>
        let ds := digitSpan s3
        match ds.1 with
        | [] => none
        | d0 :: dr =>
          match stripPre ("],".toList ++ ['{']) ds.2 with
          | none => none
          | some s4 =>
            match lastCloseSplit s4 with
            | some (c0 :: core) =>
              some ⟨d0 :: dr, '{' :: ((c0 :: core) ++ ['}'])⟩
            | _ => none

/-- Leftmost match of the wrapper pattern (`String.prototype.match` with a
non-global regex). -/
def searchChunk : List Char → Option ChunkTextMatch
  | [] => none
  | c :: rest =>
    match matchChunkAt (c :: rest) with
    | some r => some r
    | none => searchChunk rest

def chunkMatch (src : List Char) : Option ChunkTextMatch :=
  searchChunk src

/-! ## The module table loop (src/index.ts:149-348) -/

def JList.length : JList → Nat
  | .nil => 0
  | .cons _ t => 1 + JList.length t

def JList.foldl {α : Type} (f : α → J → α) (a : α) : JList → α
  | .nil => a
  | .cons h t => JList.foldl f (f a h) t

/-- One recovered module of a chunk after pass 1 (the `ChunkModule` record:
its tree re-rooted as a program, the raw key, and the two scan flags). -/
structure ChunkModule where
  prog : JList
  rawModuleId : String
  isCommonJS : Bool
  hasDefaultExport : Bool

abbrev ChunkModules := List (String × ChunkModule)

/-- JavaScript object assignment: overwrite in place or append. -/
def upsert (m : ChunkModules) (k : String) (v : ChunkModule) : ChunkModules :=
  if (m.lookup k).isSome then
    m.map fun p => if p.1 = k then (k, v) else p
  else m ++ [(k, v)]

/-- A chunk-module key (src/index.ts:186-194): numeric or string literals
are stringified, identifiers contribute their name, anything else skips
the entry. -/
def moduleKeyOf : J → Option String
  | .num n => some (toString n)
  | .str s => some s
  | .ident n => some n
  | _ => none

/-- The wrapped source the table text is parsed as (src/index.ts:130). -/
def wrapTable (table : List Char) : List Char :=
  '(' :: (table ++ ", 0)".toList)

/-- The root-shape checks of src/index.ts:151-171: exactly one statement,
an expression statement holding a sequence expression whose first
expression is an object literal; yields the object's properties. -/
def rootObjectProps : JList → Option JList
  | .cons (.exprStmt (.seqE (.cons (.objE props) _))) .nil => some props
  | _ => none

/-- The per-entry factory validation and scan (src/index.ts:200-347): at
most three parameters, identifier parameters unified against the
chunk-wide slots (slot assignments made before a rejection persist, as the
source's `continue chunkModulesLoop` leaves `chunkModuleParams` mutated),
block body, then the pass-1 scan; accepted modules are recorded under
their resolved id. -/
def processFactory (st : Slots × ChunkModules) (rawId moduleId : String)
    (params : JList) (body : J) : Slots × ChunkModules :=
  if 3 < params.length then st
  else
    let v := validateParams st.1 0 params
    if v.2 then
      match body with
      | .block stmts =>
        let sc := scanModule v.1 stmts
        (v.1, upsert st.2 moduleId ⟨stmts, rawId, sc.1, sc.2⟩)
      | _ => (v.1, st.2)
    else (v.1, st.2)

/-- One iteration of `chunkModulesLoop` (src/index.ts:177-348). -/
def buildModulesStep (mts : Option ChunkModulesTransformations)
    (st : Slots × ChunkModules) (propNode : J) : Slots × ChunkModules :=
  match propNode with
  | .objProp key value =>
    match moduleKeyOf key with
    | none => st
    | some rawId =>
      let moduleId := (resolveModule (.str rawId) mts).1
      match value with
      | .fnExpr _ params body => processFactory st rawId moduleId params body
      | .arrow _ params body => processFactory st rawId moduleId params body
      | _ => st
  | _ => st

def buildModules (mts : Option ChunkModulesTransformations) (props : JList) :
    Slots × ChunkModules :=
  props.foldl (buildModulesStep mts) ([], [])

/-- The outcome of `splitWebpackChunk`: `notChunk` is the `null` return,
`parseThrow` is the propagated exception of the embedded parse of the
captured table text (the source does not catch it), and `chunk` carries
the chunk id and the module mapping. -/
inductive SplitResult where
  | notChunk
  | parseThrow
  | chunk (id : Nat) (modules : ChunkModules)

/-- `splitWebpackChunk` (src/index.ts:99-348) up to the end of pass 1: the
wrapper match, the parse of the wrapped table text (the parser is the
external Babel parser, passed as a parameter; `none` models a parse
exception), the root-shape checks and the module-table loop.  The
null/non-null outcome of the source function is fully decided here — the
rewrite pass that follows (src/index.ts:350-867) has no early returns. -/
def splitWebpackChunk (parseProgram : List Char → Option JList)
    (mts : Option ChunkModulesTransformations) (chunkSrc : String) :
    SplitResult :=
  match chunkMatch chunkSrc.toList with
  | none => .notChunk
  | some m =>
    match parseProgram (wrapTable m.table) with
    | none => .parseThrow
    | some body =>
      match rootObjectProps body with
      | none => .notChunk
      | some props =>
        .chunk (natOfDigits m.chunkIdDigits) (buildModules mts props).2

def JList.get? : JList → Nat → Option J
  | .nil, _ => none
  | .cons h _, 0 => some h
  | .cons _ t, k + 1 => JList.get? t k

/-- The spec-side wrapper grammar of C1: the text contains the guarded
self-assignment push idiom with a literal chunk id (the wrapper pattern
matches) and the captured table text is an object-literal module table
(its wrapped form parses and has the root object shape). -/
def chunkGrammar (parseProgram : List Char → Option JList) (src : String) :
    Prop :=
  ∃ m body props, chunkMatch src.toList = some m ∧
    parseProgram (wrapTable m.table) = some body ∧
    rootObjectProps body = some props

/-- The parsed body of `(\x7b1:()=>\x7b\x7d\x7d, 0)`: a sequence expression
of the module-table object (one entry, key `1`, parameterless arrow factory
with an empty block body) and the discard literal `0`. -/
def goodChunkBody : JList :=
  .cons (.exprStmt (.seqE (.cons
    (.objE (.cons (.objProp (.num 1) (.arrow false .nil (.block .nil))) .nil))
    (.cons (.num 0) .nil)))) .nil

/-- Modelled from the spec: the external JavaScript text parser (part of
the Structural Source Tree foundation of §2, an external collaborator of
the repository).  For the closed examples below it is defined on the one
well-formed wrapped table text used there, and fails — Babel's `parse`
raises a syntax error, modelled as `none` — on every other text, in
particular on `(\x7b@@@\x7d, 0)`, which is not JavaScript. -/
def parseOracle (s : List Char) : Option JList :=
  if s = wrapTable ("\x7b1:()=>\x7b\x7d\x7d".toList) then some goodChunkBody
  else none

/-- A wrapper text whose table span `\x7b@@@\x7d` matches the textual
pattern but is not parseable JavaScript. -/
def badChunkSrc : String :=
  "(self.webpackChunk=self.webpackChunk||[]).push([[1],\x7b@@@\x7d]);"

/-- A well-formed wrapper text with chunk id 5 and a one-entry table. -/
def goodChunkSrc : String :=
  "(self.webpackChunk=self.webpackChunk||[]).push([[5],\x7b1:()=>\x7b\x7d\x7d]);"

/-! ## Pass 2: the module split traversal (src/index.ts:350-784)

The rewrite traversal is embedded as mutually recursive functions over the
tree.  Each statement is rewritten to the list of statements that replaces
it — the `insertBefore` statements followed by the transformed (or
removed) statement itself, matching how Babel places insertions
immediately before the nearest enclosing statement; the
`importsToRename` map is threaded through in visit order.  The nearest
enclosing function's asyncness (`path.getFunctionParent()?.node.async`) is
threaded as an `Option Bool`.  Two deliberate simplifications of Babel's
requeueing: replacement nodes built by the visitors are completed directly
(their freshly built identifiers are run through the identifier rewrite
where Babel would requeue them) and are not re-visited, and the
exports-definer rewrite is applied where it occurs in the webpack output,
at statement level. -/

/-- The per-chunk context pass 2 reads: the unified parameter slots, the
module's pass-1 classification, the ESM-default-exports option, the chunk
module map produced by pass 1 and the transformation overrides. -/
structure RwCtx where
  slots : Slots
  isCJS : Bool
  esmDefault : Bool
  cmods : ChunkModules
  mts : Option ChunkModulesTransformations

/-- `chunkModules[importModuleId]?.hasDefaultExport` truthiness. -/
def hasDefaultOf (cm : ChunkModules) (id : String) : Bool :=
  match cm.lookup id with
  | some m => m.hasDefaultExport
  | none => false

abbrev RMap := List (String × String)

/-- JavaScript `Map.prototype.set`. -/
def rmapSet (m : RMap) (k v : String) : RMap :=
  if (m.lookup k).isSome then m.map fun p => if p.1 = k then (k, v) else p
  else m ++ [(k, v)]

def rmapGet (m : RMap) (k : String) : Option String :=
  m.lookup k

/-- The `Identifier` visitor (src/index.ts:746-766): an unbound identifier
is renamed by the imports-to-rename map if that yields a truthy name, or
rewritten to the literal `exports` when it equals the exports slot. -/
def rwIdent (ctx : RwCtx) (bound : List String) (st : RMap) (n : String) :
    String :=
  if n ∈ bound then n
  else
    match rmapGet st n with
    | some t =>
      if t = "" then (if some n = getSlot ctx.slots 1 then "exports" else n)
      else t
    | none => if some n = getSlot ctx.slots 1 then "exports" else n

/-- The export-property body analysis (src/index.ts:429-474): a block body
holding exactly one return of an identifier yields that identifier; an
identifier expression body yields it; empty blocks (void exports) and all
other shapes are skipped. -/
def bodyVar : J → Option String
  | .block (.cons (.ret (.cons (.ident n) .nil)) .nil) => some n
  | .ident n => some n
  | _ => none

/-- One property of the exports-definer object (src/index.ts:394-474):
identifier key, parameterless function or arrow value, body yielding the
exported variable. -/
def exportEntryOf : J → Option (String × String)
  | .objProp (.ident exportAs) value =>
    match value with
    | .fnExpr _ .nil body => (bodyVar body).map fun v => (exportAs, v)
    | .arrow _ .nil body => (bodyVar body).map fun v => (exportAs, v)
    | _ => none
  | _ => none

/-- The declaration emitted for one export property
(src/index.ts:495-508): `export default` exactly when the key is the
literal name `default`, otherwise a named export specifier of the local
under the key. -/
def exportDeclOf (exportAs exportedVar : String) : J :=
  if exportAs = "default" then .exportDefaultDecl (.ident exportedVar)
  else .exportNamedDecl (.cons (.exportSpec exportedVar exportAs) .nil)

/-- The insertions for the whole exports-definer property list, in
property order (src/index.ts:394-510). -/
def exportDeclsOfProps : JList → JList
  | .nil => .nil
  | .cons p rest =>
    match exportEntryOf p with
    | some e => .cons (exportDeclOf e.1 e.2) (exportDeclsOfProps rest)
    | none => exportDeclsOfProps rest

/-- The exports-definer call matcher including argument validation
(src/index.ts:362-392): callee `<slot2>.d`, exactly two arguments, the
first the identifier `<slot1>`, the second an object literal; yields the
property list. -/
def exportDefinerParts (slots : Slots) : J → Option JList
  | .call (.member (.ident o) (.ident "d") _)
      (.cons a0 (.cons a1 .nil)) =>
    if some o = getSlot slots 2 then
      match a0, a1 with
      | .ident e, .objE props =>
        if some e = getSlot slots 1 then some props else none
      | _, _ => none
    else none
  | .call (.member (.ident _) (.ident "d") _) _ => none
  | _ => none

/-- The require-call expression rewrite (src/index.ts:517-562): a require
call used as an expression becomes a synchronous `require(path)` call when
the module is CommonJS or the nearest enclosing function is explicitly
non-async, and an awaited dynamic import otherwise. -/
def rwImportCallExpr (ctx : RwCtx) (asyncF : Option Bool) (rid : String) :
    J :=
  let p := (resolveModule (.str rid) ctx.mts).2
  let useRequire := if ctx.isCJS then true else decide (asyncF = some false)
  if useRequire then .call (.ident "require") (.cons (.str p) .nil)
  else .awaitE (.importE (.str p))

/-- `Scope.generateUidIdentifier` style fresh name: `_exports`,
`_exports2`, ... avoiding the given names. -/
def uidName (base : String) (k : Nat) : String :=
  if k = 0 then "_" ++ base else "_" ++ base ++ toString (k + 1)

def genUid (avoid : List String) (base : String) : String :=
  ((List.range (avoid.length + 1)).findSome? fun k =>
    let n := uidName base k
    if n ∈ avoid then none else some n).getD ("_" ++ base)

mutual
/-- Expression-level rewrite: returns the replacement expression, the
statements to insert before the enclosing statement, and the updated
imports-to-rename map. -/
def rwExpr (ctx : RwCtx) (bound : List String) (asyncF : Option Bool)
    (st : RMap) : J → J × JList × RMap
  | .ident n => (.ident (rwIdent ctx bound st n), .nil, st)
  | .num n => (.num n, .nil, st)
  | .str s => (.str s, .nil, st)
  | .objE props =>
    let r := rwExprList ctx bound asyncF st props
    (.objE r.1, r.2.1, r.2.2)
  | .objProp k v =>
    let rk := rwExpr ctx bound asyncF st k
    let rv := rwExpr ctx bound asyncF rk.2.2 v
    (.objProp rk.1 rv.1, rk.2.1.append rv.2.1, rv.2.2)
  | .otherProp t => (.otherProp t, .nil, st)
  | .call callee args =>
    (match parseImportCall bound ctx.slots (.call callee args) with
    | some rid => (rwImportCallExpr ctx asyncF rid, .nil, st)
    | none =>
      let rc := rwExpr ctx bound asyncF st callee
      let ra := rwExprList ctx bound asyncF rc.2.2 args
      (.call rc.1 ra.1, rc.2.1.append ra.2.1, ra.2.2))
  | .member o p c =>
    let ro := rwExpr ctx bound asyncF st o
    let rp := rwExpr ctx bound asyncF ro.2.2 p
    (.member ro.1 rp.1 c, ro.2.1.append rp.2.1, rp.2.2)
  | .assign op l r =>
    (match getDefaultExport bound ctx.slots (.assign op l r) with
    | some _ =>
      if ctx.isCJS || !ctx.esmDefault then
        let rr := rwExpr ctx bound asyncF st r
        (.assign "=" (.member (.ident (rwIdent ctx bound st "module"))
            (.ident (rwIdent ctx bound st "exports")) false) rr.1,
          rr.2.1, rr.2.2)
      else
        let uid := genUid bound "exports"
        let rr := rwExpr ctx bound asyncF st r
        (.ident uid,
          rr.2.1.append (.cons (.varDecl "const" (.cons
              (.declarator (.ident uid) (.cons rr.1 .nil)) .nil))
            (.cons (.exportDefaultDecl (.ident uid)) .nil)),
          rr.2.2)
    | none =>
      let rl := rwExpr ctx bound asyncF st l
      let rr := rwExpr ctx bound asyncF rl.2.2 r
      (.assign op rl.1 rr.1, rl.2.1.append rr.2.1, rr.2.2))
  | .arrow a params (.block ss) =>
    let r := rwStmts ctx (bound ++ paramNames params ++ blockBound ss)
      (some a) st ss
    (.arrow a params (.block r.1), .nil, r.2)
  | .arrow a params body =>
    let r := rwExpr ctx (bound ++ paramNames params) (some a) st body
    (.arrow a params r.1, r.2.1, r.2.2)
  | .fnExpr a params (.block ss) =>
    let r := rwStmts ctx (bound ++ paramNames params ++ blockBound ss)
      (some a) st ss
    (.fnExpr a params (.block r.1), .nil, r.2)
  | .fnExpr a params body =>
    let r := rwExpr ctx (bound ++ paramNames params) (some a) st body
    (.fnExpr a params r.1, r.2.1, r.2.2)
  | .awaitE a =>
    let r := rwExpr ctx bound asyncF st a
    (.awaitE r.1, r.2.1, r.2.2)
  | .importE a =>
    let r := rwExpr ctx bound asyncF st a
    (.importE r.1, r.2.1, r.2.2)
  | .seqE es =>
    let r := rwExprList ctx bound asyncF st es
    (.seqE r.1, r.2.1, r.2.2)
  | .exprStmt e => (.exprStmt e, .nil, st)
  | .varDecl k d => (.varDecl k d, .nil, st)
  | .declarator i ini => (.declarator i ini, .nil, st)
  | .block b => (.block b, .nil, st)
  | .ret a => (.ret a, .nil, st)
  | .importDecl s src => (.importDecl s src, .nil, st)
  | .importDefaultSpec l => (.importDefaultSpec l, .nil, st)
  | .importNamespaceSpec l => (.importNamespaceSpec l, .nil, st)
  | .importSpec l i => (.importSpec l i, .nil, st)
  | .exportDefaultDecl e => (.exportDefaultDecl e, .nil, st)
  | .exportNamedDecl s => (.exportNamedDecl s, .nil, st)
  | .exportSpec l e => (.exportSpec l e, .nil, st)
  | .otherNode t => (.otherNode t, .nil, st)
termination_by structural e => e
def rwExprList (ctx : RwCtx) (bound : List String) (asyncF : Option Bool)
    (st : RMap) : JList → JList × JList × RMap
  | .nil => (.nil, .nil, st)
  | .cons e rest =>
    let r1 := rwExpr ctx bound asyncF st e
    let r2 := rwExprList ctx bound asyncF r1.2.2 rest
    (.cons r1.1 r2.1, r1.2.1.append r2.2.1, r2.2.2)
termination_by structural l => l
/-- One variable declarator (src/index.ts:564-696): returns the kept
declarators (none when removed), the statements inserted before the
enclosing declaration, and the updated map. -/
def rwDeclarator (ctx : RwCtx) (bound : List String) (asyncF : Option Bool)
    (st : RMap) : J → JList × JList × RMap
  | .declarator id (.cons (.call c args) .nil) =>
    (match parseImportCall bound ctx.slots (.call c args) with
    | some rid =>
      let res := resolveModule (.str rid) ctx.mts
      if ctx.isCJS then
        (.cons (.declarator id (.cons (.call (.ident "require")
          (.cons (.str res.2) .nil)) .nil)) .nil, .nil, st)
      else
        match id with
        | .ident x =>
          if hasDefaultOf ctx.cmods res.1 then
            (.nil, .cons (.importDecl (.cons (.importDefaultSpec x) .nil)
              res.2) .nil, st)
          else
            (.nil, .cons (.importDecl
              (.cons (.importNamespaceSpec x) .nil) res.2) .nil, st)
        | _ =>
          let rc := rwExpr ctx bound asyncF st c
          let ra := rwExprList ctx bound asyncF rc.2.2 args
          (.cons (.declarator id (.cons (.call rc.1 ra.1) .nil)) .nil,
            rc.2.1.append ra.2.1, ra.2.2)
    | none =>
      let rc := rwExpr ctx bound asyncF st c
      let ra := rwExprList ctx bound asyncF rc.2.2 args
      (.cons (.declarator id (.cons (.call rc.1 ra.1) .nil)) .nil,
        rc.2.1.append ra.2.1, ra.2.2))
  | .declarator id (.cons (.member (.call c args) mp mc) .nil) =>
    (match parseImportCall bound ctx.slots (.call c args) with
    | some rid =>
      let res := resolveModule (.str rid) ctx.mts
      match id, mp with
      | .ident x, .ident imported =>
        if !reservedWords.contains imported && imported ∉ bound then
          (.nil, .cons (.importDecl
              (.cons (.importSpec imported imported) .nil) res.2) .nil,
            rmapSet st x imported)
        else
          (.nil, .cons (.importDecl
              (.cons (.importSpec x imported) .nil) res.2) .nil, st)
      | _, _ =>
        let rp := rwExpr ctx bound asyncF st mp
        (.cons (.declarator id (.cons
          (.member (rwImportCallExpr ctx asyncF rid) rp.1 mc) .nil)) .nil,
          rp.2.1, rp.2.2)
    | none =>
      let rc := rwExpr ctx bound asyncF st c
      let ra := rwExprList ctx bound asyncF rc.2.2 args
      let rp := rwExpr ctx bound asyncF ra.2.2 mp
      (.cons (.declarator id (.cons
        (.member (.call rc.1 ra.1) rp.1 mc) .nil)) .nil,
        rc.2.1.append (ra.2.1.append rp.2.1), rp.2.2))
  | .declarator id (.cons ie .nil) =>
    let r := rwExpr ctx bound asyncF st ie
    (.cons (.declarator id (.cons r.1 .nil)) .nil, r.2.1, r.2.2)
  | .declarator id ini =>
    (.cons (.declarator id ini) .nil, .nil, st)
  | other => (.cons other .nil, .nil, st)
termination_by structural d => d
def rwDecls (ctx : RwCtx) (bound : List String) (asyncF : Option Bool)
    (st : RMap) : JList → JList × JList × RMap
  | .nil => (.nil, .nil, st)
  | .cons d rest =>
    let r1 := rwDeclarator ctx bound asyncF st d
    let r2 := rwDecls ctx bound asyncF r1.2.2 rest
    (r1.1.append r2.1, r1.2.1.append r2.2.1, r2.2.2)
termination_by structural l => l
/-- Statement-level rewrite: the statement becomes its insertions followed
by its transformed self (or disappears when removed). -/
def rwStmt (ctx : RwCtx) (bound : List String) (asyncF : Option Bool)
    (st : RMap) : J → JList × RMap
  | .exprStmt (.call callee args) =>
    (match exportDefinerParts ctx.slots (.call callee args) with
    | some props => (exportDeclsOfProps props, st)
    | none =>
      match parseImportCall bound ctx.slots (.call callee args) with
      | some rid =>
        (.cons (.exprStmt (rwImportCallExpr ctx asyncF rid)) .nil, st)
      | none =>
        let rc := rwExpr ctx bound asyncF st callee
        let ra := rwExprList ctx bound asyncF rc.2.2 args
        (rc.2.1.append (ra.2.1.append
          (.cons (.exprStmt (.call rc.1 ra.1)) .nil)), ra.2.2))
  | .exprStmt (.assign op l r0) =>
    (match getDefaultExport bound ctx.slots (.assign op l r0) with
    | some _ =>
      if ctx.isCJS || !ctx.esmDefault then
        let rr := rwExpr ctx bound asyncF st r0
        (rr.2.1.append (.cons (.exprStmt (.assign "="
          (.member (.ident (rwIdent ctx bound st "module"))
            (.ident (rwIdent ctx bound st "exports")) false) rr.1)) .nil),
          rr.2.2)
      else
        let rr := rwExpr ctx bound asyncF st r0
        (rr.2.1.append (.cons (.exportDefaultDecl rr.1) .nil), rr.2.2)
    | none =>
      let rl := rwExpr ctx bound asyncF st l
      let rr := rwExpr ctx bound asyncF rl.2.2 r0
      (rl.2.1.append (rr.2.1.append
        (.cons (.exprStmt (.assign op rl.1 rr.1)) .nil)), rr.2.2))
  | .exprStmt e =>
    let r := rwExpr ctx bound asyncF st e
    (r.2.1.append (.cons (.exprStmt r.1) .nil), r.2.2)
  | .varDecl kind decls =>
    let r := rwDecls ctx bound asyncF st decls
    (match r.1 with
    | .nil => (r.2.1, r.2.2)
    | ds => (r.2.1.append (.cons (.varDecl kind ds) .nil), r.2.2))
  | .ret (.cons e .nil) =>
    let r := rwExpr ctx bound asyncF st e
    (r.2.1.append (.cons (.ret (.cons r.1 .nil)) .nil), r.2.2)
  | .block body =>
    let r := rwStmts ctx (bound ++ blockBound body) asyncF st body
    (.cons (.block r.1) .nil, r.2)
  | other => (.cons other .nil, st)
termination_by structural s => s
def rwStmts (ctx : RwCtx) (bound : List String) (asyncF : Option Bool)
    (st : RMap) : JList → JList × RMap
  | .nil => (.nil, st)
  | .cons s rest =>
    let r1 := rwStmt ctx bound asyncF st s
    let r2 := rwStmts ctx bound asyncF r1.2 rest
    (r1.1.append r2.1, r2.2)
termination_by structural l => l
end

/-- Pass 2 for one module file: the traversal starts at the program with
the module's own declarations bound and no enclosing function. -/
def rewriteModule (ctx : RwCtx) (prog : JList) : JList :=
  (rwStmts ctx (blockBound prog) none [] prog).1

/-- The factory parameter slots of the worked examples: `(e, t, n)`. -/
def demoSlots : Slots := [some "e", some "t", some "n"]

/-- A module body whose single statement assigns `e.t = 5` — `e` is the
module slot and `t` the exports slot, both unbound in the module file. -/
def demoProg : JList :=
  .cons (.exprStmt (.assign "="
    (.member (.ident "e") (.ident "t") false) (.num 5))) .nil

/-- The pass-2 context for an ESM-classified module of the demo chunk with
default options. -/
def demoCtx : RwCtx := ⟨demoSlots, false, true, [], none⟩

/-! ## Predicates for the re-classification analysis (C9)

`assignLeftOK` states that an assignment target is not the
`<slot0>.exports` member shape `getDefaultExport` recognizes; `noShape`
extends it to every assignment in a tree — a tree with this property can
contain no default-export candidate, bound or not.  `clean` additionally
requires that the exports-slot name never occurs as an identifier (so the
bare-identifier rewrite to `exports` renames nothing) and that no
declarator holds the import-accessor initializer shape (so the
imports-to-rename map stays empty): the two renaming mechanisms of pass 2
that the counterexample shows can manufacture a new candidate. -/

def assignLeftOK (slots : Slots) : J → Bool
  | .member (.ident o) p _ =>
    !(decide (some o = getSlot slots 0) && p.isIdentNamed "exports")
  | _ => true

mutual
def noShapeE (slots : Slots) : J → Bool
  | .ident _ => true
  | .num _ => true
  | .str _ => true
  | .objE props => noShapeL slots props
  | .objProp k v => noShapeE slots k && noShapeE slots v
  | .otherProp _ => true
  | .call c a => noShapeE slots c && noShapeL slots a
  | .member o p _ => noShapeE slots o && noShapeE slots p
  | .assign _ l r => assignLeftOK slots l && noShapeE slots l && noShapeE slots r
  | .arrow _ params body => noShapeL slots params && noShapeE slots body
  | .fnExpr _ params body => noShapeL slots params && noShapeE slots body
  | .awaitE a => noShapeE slots a
  | .importE a => noShapeE slots a
  | .seqE es => noShapeL slots es
  | .exprStmt e => noShapeE slots e
  | .varDecl _ ds => noShapeL slots ds
  | .declarator id init => noShapeE slots id && noShapeL slots init
  | .block b => noShapeL slots b
  | .ret a => noShapeL slots a
  | .importDecl s _ => noShapeL slots s
  | .importDefaultSpec _ => true
  | .importNamespaceSpec _ => true
  | .importSpec _ _ => true
  | .exportDefaultDecl e => noShapeE slots e
  | .exportNamedDecl s => noShapeL slots s
  | .exportSpec _ _ => true
  | .otherNode _ => true
def noShapeL (slots : Slots) : JList → Bool
  | .nil => true
  | .cons h t => noShapeE slots h && noShapeL slots t
end

mutual
def cleanE (slots : Slots) : J → Bool
  | .ident n => !(decide (some n = getSlot slots 1))
  | .num _ => true
  | .str _ => true
  | .objE props => cleanL slots props
  | .objProp k v => cleanE slots k && cleanE slots v
  | .otherProp _ => true
  | .call c a => cleanE slots c && cleanL slots a
  | .member o p _ => cleanE slots o && cleanE slots p
  | .assign _ l r => assignLeftOK slots l && cleanE slots l && cleanE slots r
  | .arrow _ params body => cleanL slots params && cleanE slots body
  | .fnExpr _ params body => cleanL slots params && cleanE slots body
  | .awaitE a => cleanE slots a
  | .importE a => cleanE slots a
  | .seqE es => cleanL slots es
  | .exprStmt e => cleanE slots e
  | .varDecl _ ds => cleanL slots ds
  | .declarator id init =>
    (match init with
     | .cons (.member (.call _ _) _ _) .nil => false
     | _ => true) && cleanE slots id && cleanL slots init
  | .block b => cleanL slots b
  | .ret a => cleanL slots a
  | .importDecl s _ => cleanL slots s
  | .importDefaultSpec _ => true
  | .importNamespaceSpec _ => true
  | .importSpec _ _ => true
  | .exportDefaultDecl e => cleanE slots e
  | .exportNamedDecl s => cleanL slots s
  | .exportSpec _ _ => true
  | .otherNode _ => true
def cleanL (slots : Slots) : JList → Bool
  | .nil => true
  | .cons h t => cleanE slots h && cleanL slots t
end

/-! ## A size measure for strong induction over the tree -/

mutual
def jsizeE : J → Nat
  | .ident _ => 1
  | .num _ => 1
  | .str _ => 1
  | .objE props => 1 + jsizeL props
  | .objProp k v => 1 + jsizeE k + jsizeE v
  | .otherProp _ => 1
  | .call c a => 1 + jsizeE c + jsizeL a
  | .member o p _ => 1 + jsizeE o + jsizeE p
  | .assign _ l r => 1 + jsizeE l + jsizeE r
  | .arrow _ params body => 1 + jsizeL params + jsizeE body
  | .fnExpr _ params body => 1 + jsizeL params + jsizeE body
  | .awaitE a => 1 + jsizeE a
  | .importE a => 1 + jsizeE a
  | .seqE es => 1 + jsizeL es
  | .exprStmt e => 1 + jsizeE e
  | .varDecl _ ds => 1 + jsizeL ds
  | .declarator id init => 1 + jsizeE id + jsizeL init
  | .block b => 1 + jsizeL b
  | .ret a => 1 + jsizeL a
  | .importDecl s _ => 1 + jsizeL s
  | .importDefaultSpec _ => 1
  | .importNamespaceSpec _ => 1
  | .importSpec _ _ => 1
  | .exportDefaultDecl e => 1 + jsizeE e
  | .exportNamedDecl s => 1 + jsizeL s
  | .exportSpec _ _ => 1
  | .otherNode _ => 1
def jsizeL : JList → Nat
  | .nil => 0
  | .cons h t => 1 + jsizeE h + jsizeL t
end

/-! ## Conclusions of the pass-2 no-new-candidate invariant (C9) -/

/-- What the invariant asserts of an expression rewrite started with an
empty imports-to-rename map: the replacement and the insertions contain no
candidate-shaped assignment, the map stays empty, and the replacement is
an identifier or a member expression only if the original was (with the
same computed flag). -/
def rwExprOK (ctx : RwCtx) (bound : List String) (asyncF : Option Bool)
    (e : J) : Prop :=
  noShapeE ctx.slots (rwExpr ctx bound asyncF [] e).1 = true ∧
  noShapeL ctx.slots (rwExpr ctx bound asyncF [] e).2.1 = true ∧
  (rwExpr ctx bound asyncF [] e).2.2 = [] ∧
  (∀ n, (rwExpr ctx bound asyncF [] e).1 = .ident n → e = .ident n) ∧
  (∀ a b cc, (rwExpr ctx bound asyncF [] e).1 = .member a b cc →
    ∃ a0 b0, e = .member a0 b0 cc) ∧
  (assignLeftOK ctx.slots e = true →
    assignLeftOK ctx.slots (rwExpr ctx bound asyncF [] e).1 = true)

def rwExprListOK (ctx : RwCtx) (bound : List String) (asyncF : Option Bool)
    (l : JList) : Prop :=
  noShapeL ctx.slots (rwExprList ctx bound asyncF [] l).1 = true ∧
  noShapeL ctx.slots (rwExprList ctx bound asyncF [] l).2.1 = true ∧
  (rwExprList ctx bound asyncF [] l).2.2 = []

def rwDeclaratorOK (ctx : RwCtx) (bound : List String)
    (asyncF : Option Bool) (d : J) : Prop :=
  noShapeL ctx.slots (rwDeclarator ctx bound asyncF [] d).1 = true ∧
  noShapeL ctx.slots (rwDeclarator ctx bound asyncF [] d).2.1 = true ∧
  (rwDeclarator ctx bound asyncF [] d).2.2 = []

def rwDeclsOK (ctx : RwCtx) (bound : List String) (asyncF : Option Bool)
    (l : JList) : Prop :=
  noShapeL ctx.slots (rwDecls ctx bound asyncF [] l).1 = true ∧
  noShapeL ctx.slots (rwDecls ctx bound asyncF [] l).2.1 = true ∧
  (rwDecls ctx bound asyncF [] l).2.2 = []

def rwStmtOK (ctx : RwCtx) (bound : List String) (asyncF : Option Bool)
    (s : J) : Prop :=
  noShapeL ctx.slots (rwStmt ctx bound asyncF [] s).1 = true ∧
  (rwStmt ctx bound asyncF [] s).2 = []

def rwStmtsOK (ctx : RwCtx) (bound : List String) (asyncF : Option Bool)
    (l : JList) : Prop :=
  noShapeL ctx.slots (rwStmts ctx bound asyncF [] l).1 = true ∧
  (rwStmts ctx bound asyncF [] l).2 = []

/-! ## Characterizing the scan fold -/

/-- Relation between the scan state and the candidates seen so far. -/
def scanInv (st : Bool × Bool) (cs : List J) : Prop :=
  (st.2 = true ↔ cs ≠ []) ∧
  (st.1 = true ↔ 2 ≤ cs.length ∨ ∃ x ∈ cs, x.isObjE = true)

theorem scanStep_inv (slots : Slots) (st : Bool × Bool) (cs : List J)
    (a : List String × J) (h : scanInv st cs) :
    scanInv (scanStep slots st a)
      (cs ++ (getDefaultExport a.1 slots a.2).toList) := by
  obtain ⟨h2, h1⟩ := h
  cases hga : getDefaultExport a.1 slots a.2 with
  | none => simpa [scanStep, hga] using ⟨h2, h1⟩
  | some rhs =>
    by_cases hd : st.2 = true
    · have hcs : cs ≠ [] := h2.mp hd
      have hlen : 1 ≤ cs.length := by
        cases cs with
        | nil => exact absurd rfl hcs
        | cons x t => simp
      constructor
      · simp [scanStep, hga, hd]
      · simp only [scanStep, hga, hd, if_true]
        constructor
        · intro _
          left
          simp only [List.length_append, List.length_cons, List.length_nil,
            Option.toList_some]
          omega
        · intro _
          trivial
    · have hcs : cs = [] := by
        by_contra hne
        exact hd (h2.mpr hne)
      subst hcs
      have hst1 : st.1 = false := by
        rcases Bool.eq_false_or_eq_true st.1 with h | h
        · rcases h1.mp h with hlen | ⟨x, hx, _⟩
          · simp at hlen
          · simp at hx
        · exact h
      have hst2 : st.2 = false := by
        rcases Bool.eq_false_or_eq_true st.2 with h | h
        · exact absurd h hd
        · exact h
      constructor
      · simp [scanStep, hga, hst2]
      · simp [scanStep, hga, hst2, hst1]

theorem scanFold_inv (slots : Slots) (l : List (List String × J))
    (st : Bool × Bool) (cs : List J) (h : scanInv st cs) :
    scanInv (l.foldl (scanStep slots) st) (cs ++ scanCandidates slots l) := by
  induction l generalizing st cs with
  | nil => simpa [scanCandidates] using h
  | cons a t ih =>
    have hstep := scanStep_inv slots st cs a h
    have := ih (scanStep slots st a) (cs ++ (getDefaultExport a.1 slots a.2).toList) hstep
    cases hga : getDefaultExport a.1 slots a.2 with
    | none => simpa [scanCandidates, List.filterMap_cons, hga] using this
    | some rhs =>
      simpa [scanCandidates, List.filterMap_cons, hga] using this

/-- C5: the pass-1 scanner treats an assignment to `<slot0>.exports` as a
default-export candidate only with the `=` operator (any other operator
yields the invalid-operator warning and no export); the module is
classified CommonJS iff the scan sees a second candidate or a candidate
whose right-hand side is an object literal; the has-default-export flag is
set iff at least one candidate is seen.  `scanModule` returns
`(isCommonJS, hasDefaultExport)`. -/
theorem scan_default_export_classification (slots : Slots) (prog : JList) :
    (∀ (bound : List String) (o : String) (p rhs : J) (c : Bool) (op : String),
      some o = getSlot slots 0 → o ∉ bound → p.isIdentNamed "exports" = true →
      op ≠ "=" →
      getDefaultExportW bound slots (.assign op (.member (.ident o) p c) rhs)
        = (none, true)) ∧
    ((scanModule slots prog).2 = true ↔ moduleCandidates slots prog ≠ []) ∧
    ((scanModule slots prog).1 = true ↔
      2 ≤ (moduleCandidates slots prog).length ∨
      ∃ x ∈ moduleCandidates slots prog, x.isObjE = true) := by
  refine ⟨?_, ?_⟩
  · intro bound o p rhs c op h0 hb hp hop
    simp [getDefaultExportW, h0.symm, hb, hp, hop]
  · have h := scanFold_inv slots (collectAssignsL (blockBound prog) prog)
      (false, false) [] (by constructor <;> simp)
    simpa [scanModule, moduleCandidates] using h

theorem scan_default_export_classification_witness :
    getDefaultExportW ["y"] [some "e", some "t", some "n"]
      (.assign "+=" (.member (.ident "e") (.ident "exports") false) (.num 1))
      = (none, true) :=
  (scan_default_export_classification [some "e", some "t", some "n"] .nil).1
    ["y"] "e" (.ident "exports") (.num 1) false "+=" (by decide) (by decide)
    (by decide) (by decide)

/-! ## The chunk matcher: C1 -/

/-- C1 counterexample: the input `badChunkSrc` does not satisfy the
wrapper grammar (its captured table span `\x7b@@@\x7d` is not an object
literal — it does not even parse), so by the claim `splitWebpackChunk`
should return null and never throw; but the source passes the captured
span to the parser without catching, and the parse exception propagates
(`parseThrow`), so the result is neither null nor a chunk. -/
theorem splitWebpackChunk_throws_on_unparseable_table :
    ¬ chunkGrammar parseOracle badChunkSrc ∧
    splitWebpackChunk parseOracle none badChunkSrc = .parseThrow := by
  constructor
  · rintro ⟨m, body, props, hm, hp, hr⟩
    have hconc : chunkMatch badChunkSrc.toList =
        some ⟨['1'], "\x7b@@@\x7d".toList⟩ := by decide
    rw [hconc] at hm
    have hme := Option.some.inj hm
    subst hme
    have hnone : parseOracle (wrapTable ("\x7b@@@\x7d".toList)) = none := by
      rfl
    rw [hnone] at hp
    exact Option.noConfusion hp
  · rfl

/-- C1 (amended): `splitWebpackChunk` returns a chunk iff the wrapper
pattern matches and the captured table span parses to the root
object-literal sequence shape; when the pattern does not match at all the
result is null (`notChunk`, no throw); when the pattern matches but the
wrapped table span fails to parse, the parse exception propagates; when it
parses with a different root shape the result is null. -/
theorem splitWebpackChunk_match_characterization
    (parseProgram : List Char → Option JList)
    (mts : Option ChunkModulesTransformations) (src : String) :
    ((∃ id mods, splitWebpackChunk parseProgram mts src = .chunk id mods) ↔
      chunkGrammar parseProgram src) ∧
    (chunkMatch src.toList = none →
      splitWebpackChunk parseProgram mts src = .notChunk) ∧
    (∀ m, chunkMatch src.toList = some m →
      parseProgram (wrapTable m.table) = none →
      splitWebpackChunk parseProgram mts src = .parseThrow) ∧
    (∀ m body, chunkMatch src.toList = some m →
      parseProgram (wrapTable m.table) = some body →
      rootObjectProps body = none →
      splitWebpackChunk parseProgram mts src = .notChunk) := by
  refine ⟨⟨?_, ?_⟩, ?_, ?_, ?_⟩
  · intro ⟨id, mods, h⟩
    cases hm : chunkMatch src.toList with
    | none =>
      have hm2 : chunkMatch src.data = none := hm
      simp [splitWebpackChunk, hm2] at h
    | some m =>
      have hm2 : chunkMatch src.data = some m := hm
      cases hp : parseProgram (wrapTable m.table) with
      | none => simp [splitWebpackChunk, hm2, hp] at h
      | some body =>
        cases hr : rootObjectProps body with
        | none => simp [splitWebpackChunk, hm2, hp, hr] at h
        | some props => exact ⟨m, body, props, hm, hp, hr⟩
  · rintro ⟨m, body, props, hm, hp, hr⟩
    have hm2 : chunkMatch src.data = some m := hm
    exact ⟨natOfDigits m.chunkIdDigits, (buildModules mts props).2, by
      simp [splitWebpackChunk, hm2, hp, hr]⟩
  · intro h
    have h2 : chunkMatch src.data = none := h
    simp [splitWebpackChunk, h2]
  · intro m h hp
    have h2 : chunkMatch src.data = some m := h
    simp [splitWebpackChunk, h2, hp]
  · intro m body h hp hr
    have h2 : chunkMatch src.data = some m := h
    simp [splitWebpackChunk, h2, hp, hr]

theorem splitWebpackChunk_match_characterization_witness :
    splitWebpackChunk parseOracle none "hello" = .notChunk ∧
    (∃ id mods,
      splitWebpackChunk parseOracle none goodChunkSrc = .chunk id mods) := by
  constructor
  · exact (splitWebpackChunk_match_characterization parseOracle none
      "hello").2.1 (by decide)
  · exact (splitWebpackChunk_match_characterization parseOracle none
      goodChunkSrc).1.mpr
      ⟨⟨['5'], "\x7b1:()=>\x7b\x7d\x7d".toList⟩, goodChunkBody,
        .cons (.objProp (.num 1) (.arrow false .nil (.block .nil))) .nil,
        by decide, rfl, rfl⟩

/-! ## Slot unification: C6 -/

theorem getSlot_setSlot_self : ∀ (s : Slots) (i : Nat) (n : String),
    getSlot (setSlot s i n) i = some n
  | [], 0, n => rfl
  | [], i + 1, n => by
    simpa [setSlot, getSlot] using getSlot_setSlot_self [] i n
  | _ :: _, 0, _ => rfl
  | _ :: t, i + 1, n => by
    simpa [setSlot, getSlot] using getSlot_setSlot_self t i n

theorem getSlot_setSlot_ne : ∀ (s : Slots) (i j : Nat) (n : String), i ≠ j →
    getSlot (setSlot s i n) j = getSlot s j
  | [], 0, 0, _, h => absurd rfl h
  | [], 0, _ + 1, _, _ => by simp [setSlot, getSlot]
  | [], _ + 1, 0, _, _ => by simp [setSlot, getSlot]
  | [], i + 1, j + 1, n, h => by
    simpa [setSlot, getSlot] using getSlot_setSlot_ne [] i j n (by omega)
  | _ :: _, 0, 0, _, h => absurd rfl h
  | _ :: _, 0, _ + 1, _, _ => by simp [setSlot, getSlot]
  | _ :: _, _ + 1, 0, _, _ => by simp [setSlot, getSlot]
  | _ :: t, i + 1, j + 1, n, h => by
    simpa [setSlot, getSlot] using getSlot_setSlot_ne t i j n (by omega)

/-- Already-truthy slots are never overwritten by the parameter loop. -/
theorem validateParams_preserves_fixed : ∀ (params : JList) (slots : Slots)
    (i j : Nat), slotTruthy (getSlot slots j) = true →
    getSlot (validateParams slots i params).1 j = getSlot slots j
  | .nil, _, _, _, _ => rfl
  | .cons p rest, slots, i, j, h => by
    cases p
    all_goals try rfl
    case ident n =>
      show getSlot (if slotTruthy (getSlot slots i) = true then
          (if getSlot slots i = some n then validateParams slots (i + 1) rest
           else (slots, false))
        else validateParams (setSlot slots i n) (i + 1) rest).1 j
        = getSlot slots j
      by_cases hfix : slotTruthy (getSlot slots i) = true
      · rw [if_pos hfix]
        by_cases heq : getSlot slots i = some n
        · rw [if_pos heq]
          exact validateParams_preserves_fixed rest slots (i + 1) j h
        · rw [if_neg heq]
      · rw [if_neg hfix]
        have hij : i ≠ j := fun he => hfix (he ▸ h)
        have hpres := getSlot_setSlot_ne slots i j n hij
        have h2 : slotTruthy (getSlot (setSlot slots i n) j) = true := by
          rw [hpres]; exact h
        rw [validateParams_preserves_fixed rest (setSlot slots i n) (i + 1) j h2,
          hpres]

/-- A module whose parameter `k` is an identifier different from the name
already fixed for slot `k` is rejected. -/
theorem validateParams_rejects_mismatch : ∀ (params : JList) (k : Nat)
    (slots : Slots) (i : Nat) (n p : String),
    getSlot slots (i + k) = some n → n ≠ "" →
    params.get? k = some (.ident p) → p ≠ n →
    (validateParams slots i params).2 = false
  | .nil, k, _, _, _, _, _, _, hk, _ => by simp [JList.get?] at hk
  | .cons q rest, 0, slots, i, n, p, hs, hn, hk, hp => by
    have hq : q = .ident p := by
      have : some q = some (.ident p) := hk
      exact Option.some.inj this
    subst hq
    have hs0 : getSlot slots i = some n := by simpa using hs
    have htr : slotTruthy (getSlot slots i) = true := by
      rw [hs0]; simpa [slotTruthy] using hn
    have hne : ¬(getSlot slots i = some p) := by
      rw [hs0]; intro hcon
      exact hp (Option.some.inj hcon).symm
    show (if slotTruthy (getSlot slots i) = true then
        (if getSlot slots i = some p then validateParams slots (i + 1) rest
         else (slots, false))
      else validateParams (setSlot slots i p) (i + 1) rest).2 = false
    rw [if_pos htr, if_neg hne]
  | .cons q rest, k + 1, slots, i, n, p, hs, hn, hk, hp => by
    have hk' : rest.get? k = some (.ident p) := hk
    cases q
    all_goals try rfl
    case ident m =>
      show (if slotTruthy (getSlot slots i) = true then
          (if getSlot slots i = some m then validateParams slots (i + 1) rest
           else (slots, false))
        else validateParams (setSlot slots i m) (i + 1) rest).2 = false
      by_cases hfix : slotTruthy (getSlot slots i) = true
      · rw [if_pos hfix]
        by_cases heq : getSlot slots i = some m
        · rw [if_pos heq]
          exact validateParams_rejects_mismatch rest k slots (i + 1) n p
            (by rw [← hs]; congr 1; omega) hn hk' hp
        · rw [if_neg heq]
      · rw [if_neg hfix]
        have hs2 : getSlot (setSlot slots i m) (i + 1 + k) = some n := by
          rw [getSlot_setSlot_ne slots i (i + 1 + k) m (by omega)]
          rw [← hs]; congr 1; omega
        exact validateParams_rejects_mismatch rest k (setSlot slots i m)
          (i + 1) n p hs2 hn hk' hp

/-- An accepted parameter list leaves slot `i + k` holding parameter `k`'s
name. -/
theorem validateParams_fixes_slots : ∀ (params : JList) (k : Nat)
    (slots : Slots) (i : Nat) (p : String),
    params.get? k = some (.ident p) → p ≠ "" →
    (validateParams slots i params).2 = true →
    getSlot (validateParams slots i params).1 (i + k) = some p
  | .nil, k, _, _, _, hk, _, _ => by simp [JList.get?] at hk
  | .cons q rest, 0, slots, i, p, hk, hp, hacc => by
    have hq : q = .ident p := by
      have : some q = some (.ident p) := hk
      exact Option.some.inj this
    subst hq
    show getSlot (validateParams slots i (.cons (.ident p) rest)).1 (i + 0)
      = some p
    have hunf : validateParams slots i (.cons (.ident p) rest)
        = (if slotTruthy (getSlot slots i) = true then
            (if getSlot slots i = some p then validateParams slots (i + 1) rest
             else (slots, false))
          else validateParams (setSlot slots i p) (i + 1) rest) := rfl
    rw [hunf] at hacc ⊢
    by_cases hfix : slotTruthy (getSlot slots i) = true
    · rw [if_pos hfix] at hacc ⊢
      by_cases heq : getSlot slots i = some p
      · rw [if_pos heq] at hacc ⊢
        have := validateParams_preserves_fixed rest slots (i + 1) i
          (heq ▸ hfix)
        simpa using this.trans heq
      · rw [if_neg heq] at hacc
        exact absurd hacc (by simp)
    · rw [if_neg hfix] at hacc ⊢
      have htr2 : slotTruthy (getSlot (setSlot slots i p) i) = true := by
        rw [getSlot_setSlot_self]; simpa [slotTruthy] using hp
      have := validateParams_preserves_fixed rest (setSlot slots i p)
        (i + 1) i htr2
      simpa using this.trans (getSlot_setSlot_self slots i p)
  | .cons q rest, k + 1, slots, i, p, hk, hp, hacc => by
    have hk' : rest.get? k = some (.ident p) := hk
    have hik : i + (k + 1) = i + 1 + k := by omega
    cases q
    case ident m =>
      have hunf : validateParams slots i (.cons (.ident m) rest)
          = (if slotTruthy (getSlot slots i) = true then
              (if getSlot slots i = some m then validateParams slots (i + 1) rest
               else (slots, false))
            else validateParams (setSlot slots i m) (i + 1) rest) := rfl
      rw [hunf] at hacc ⊢
      by_cases hfix : slotTruthy (getSlot slots i) = true
      · rw [if_pos hfix] at hacc ⊢
        by_cases heq : getSlot slots i = some m
        · rw [if_pos heq] at hacc ⊢
          rw [hik]
          exact validateParams_fixes_slots rest k slots (i + 1) p hk' hp hacc
        · rw [if_neg heq] at hacc
          exact absurd hacc (by simp)
      · rw [if_neg hfix] at hacc ⊢
        rw [hik]
        exact validateParams_fixes_slots rest k (setSlot slots i m) (i + 1) p
          hk' hp hacc
    all_goals exact absurd hacc (by simp [validateParams])

/-- C6: factory parameter slot names are chunk-scoped.  An accepted module
fixes each slot to its parameter name; a later module whose identifier
parameter in an already-fixed slot differs is rejected — the chunk module
map is left exactly as it was (earlier modules' results are unaffected)
and every already-fixed slot name survives the rejection unchanged. -/
theorem slot_unification_chunk_scoped (slots : Slots) (mods : ChunkModules)
    (rawId moduleId : String) (params : JList) (body : J)
    (k : Nat) (n p : String)
    (hfix : getSlot slots k = some n) (hn : n ≠ "")
    (hk : params.get? k = some (.ident p)) (hp : p ≠ n) :
    (∀ (params1 : JList) (k1 : Nat) (q : String) (slots0 : Slots),
      params1.get? k1 = some (.ident q) → q ≠ "" →
      (validateParams slots0 0 params1).2 = true →
      getSlot (validateParams slots0 0 params1).1 k1 = some q) ∧
    (processFactory (slots, mods) rawId moduleId params body).2 = mods ∧
    (∀ j m, getSlot slots j = some m → m ≠ "" →
      getSlot (processFactory (slots, mods) rawId moduleId params body).1 j
        = some m) := by
  have hrej : (validateParams slots 0 params).2 = false :=
    validateParams_rejects_mismatch params k slots 0 n p (by simpa using hfix)
      hn hk hp
  refine ⟨?_, ?_, ?_⟩
  · intro params1 k1 q slots0 hk1 hq hacc
    simpa using validateParams_fixes_slots params1 k1 slots0 0 q hk1 hq hacc
  · unfold processFactory
    by_cases hlen : 3 < params.length
    · simp [hlen]
    · simp [hlen, hrej]
  · intro j m hj hm
    unfold processFactory
    by_cases hlen : 3 < params.length
    · simp [hlen, hj]
    · have hpres := validateParams_preserves_fixed params slots 0 j
        (by rw [hj]; simpa [slotTruthy] using hm)
      simp [hlen, hrej]
      rw [hpres, hj]

theorem slot_unification_chunk_scoped_witness :
    (processFactory ([some "e", some "t", some "n"], [("1", ⟨.nil, "1", false, false⟩)])
      "2" "2" (.cons (.ident "e") (.cons (.ident "x") .nil)) (.block .nil)).2
      = [("1", ⟨.nil, "1", false, false⟩)] ∧
    getSlot (processFactory ([some "e", some "t", some "n"],
      [("1", ⟨.nil, "1", false, false⟩)])
      "2" "2" (.cons (.ident "e") (.cons (.ident "x") .nil)) (.block .nil)).1 1
      = some "t" := by
  have h := slot_unification_chunk_scoped [some "e", some "t", some "n"]
    [("1", ⟨.nil, "1", false, false⟩)] "2" "2"
    (.cons (.ident "e") (.cons (.ident "x") .nil)) (.block .nil)
    1 "t" "x" (by decide) (by decide) rfl (by decide)
  exact ⟨h.2.1, h.2.2 1 "t" (by decide) (by decide)⟩

/-! ## Theorems for C7 and C8 -/

/-- C7: the Module ID Resolver is a pure function of (raw key, override):
with no transformation entry, or with a falsy rename override, the final
identifier is the raw key stringified and the import path is that
identifier prefixed with `./`; with a truthy rename override the final
identifier is the rename target and the path drops the `./` prefix exactly
when the absolute flag is truthy.  (Purity, side-effect freedom and
idempotence are inherent: `resolveModule` is a total function of its two
arguments.) -/
theorem resolveModule_resolution_invariant (k : ModKey)
    (mts : Option ChunkModulesTransformations) :
    (mts.bind (fun m => lookupMT m k.toStr) = none →
      resolveModule k mts = (k.toStr, "./" ++ k.toStr)) ∧
    (∀ t, mts.bind (fun m => lookupMT m k.toStr) = some t →
      truthyStr t.renameModule = false →
      resolveModule k mts = (k.toStr, "./" ++ k.toStr)) ∧
    (∀ t r, mts.bind (fun m => lookupMT m k.toStr) = some t →
      t.renameModule = some r → r ≠ "" →
      resolveModule k mts =
        (r, if truthyBool t.importAsAbsolute then r else "./" ++ r)) := by
  refine ⟨?_, ?_, ?_⟩
  · intro h
    simp [resolveModule, h]
  · intro t h htr
    match ht : t.renameModule with
    | none => simp [resolveModule, h, ht]
    | some r =>
      simp [truthyStr, ht] at htr
      simp [resolveModule, h, ht, htr]
  · intro t r h ht hr
    simp [resolveModule, h, ht, hr]

theorem resolveModule_resolution_invariant_witness :
    resolveModule (.num 5)
        (some [("5", ⟨some "lib", some true, []⟩)]) = ("lib", "lib") ∧
    resolveModule (.num 7) none = ("7", "./7") := by
  constructor
  · have h := (resolveModule_resolution_invariant (.num 5)
      (some [("5", ⟨some "lib", some true, []⟩)])).2.2
      ⟨some "lib", some true, []⟩ "lib" (by rfl) (by rfl) (by decide)
    simpa using h
  · exact (resolveModule_resolution_invariant (.num 7) none).1 rfl

/-- C8 counterexample: requesting a rename of the binding `x`, in a scope
where `x` is bound, to the name `x` (a name already bound in that scope)
leaves the scope unchanged but produces NO diagnostic — the source returns
early on `originalName === renameTo` before the collision warning, so the
claim that every rename request targeting an already-bound name produces a
diagnostic is false. -/
theorem renameOp_self_rename_silent :
    renameOp ["x"] "x" (some "x") = (["x"], none, false) := by decide

/-- C8 (amended): the rename operation fails closed for proper collisions:
whenever the requested target is truthy, its reserved-word-prefixed form
differs from the original name but is already bound in the scope, the
scope is left unmutated, no new name is returned, and the already-bound
diagnostic is produced; a reserved-word target is `_`-prefixed before this
collision check.  (A request whose effective target equals the original
name is a silent no-op.) -/
theorem renameOp_collision_fails_closed (scope : List String)
    (old rn : String) (hne : rn ≠ "")
    (hdiff : effectiveTarget rn ≠ old)
    (hbound : scope.contains (effectiveTarget rn) = true) :
    renameOp scope old (some rn) = (scope, none, true) := by
  simp only [renameOp, hne, if_false]
  rw [if_neg (fun h => hdiff h.symm), if_pos hbound]

theorem renameOp_collision_fails_closed_witness :
    renameOp ["y", "z"] "y" (some "z") = (["y", "z"], none, true) :=
  renameOp_collision_fails_closed ["y", "z"] "y" "z" (by decide)
    (by decide) (by decide)

/-! ## The rewrite engine: C2, C3, C4, C10 -/

theorem exportDefinerParts_pos (slots : Slots) (r e : String) (c : Bool)
    (props : JList) (hr : getSlot slots 2 = some r)
    (he : getSlot slots 1 = some e) :
    exportDefinerParts slots (.call (.member (.ident r) (.ident "d") c)
      (.cons (.ident e) (.cons (.objE props) .nil))) = some props := by
  simp [exportDefinerParts, ← hr, ← he]

theorem parseImportCall_pos (bound : List String) (slots : Slots)
    (nreq : String) (mid : Nat) (hn : getSlot slots 2 = some nreq)
    (hb : nreq ∉ bound) :
    parseImportCall bound slots (.call (.ident nreq) (.cons (.num mid) .nil))
      = some (toString mid) := by
  simp [parseImportCall, ← hn, hb]

set_option maxHeartbeats 1000000 in
/-- C2: an exports-definer call statement `r.d(e, { foo: () => bar,
default: () => baz })` is replaced, in property order and at the position
of the call's enclosing statement, by one named export declaration
exporting local `bar` under the name `foo` and one default export
declaration of `baz` (default export exactly because the second key is the
literal name `default`), and the original call statement is removed. -/
theorem export_definer_rewrite (ctx : RwCtx) (bound : List String)
    (asyncF : Option Bool) (st : RMap) (r e foo bar baz : String) (c : Bool)
    (hr : getSlot ctx.slots 2 = some r) (he : getSlot ctx.slots 1 = some e)
    (hfoo : foo ≠ "default") :
    rwStmt ctx bound asyncF st (.exprStmt (.call
      (.member (.ident r) (.ident "d") c)
      (.cons (.ident e) (.cons (.objE (.cons
        (.objProp (.ident foo) (.arrow false .nil (.ident bar)))
        (.cons (.objProp (.ident "default") (.arrow false .nil (.ident baz)))
          .nil))) .nil))))
    = (.cons (.exportNamedDecl (.cons (.exportSpec bar foo) .nil))
        (.cons (.exportDefaultDecl (.ident baz)) .nil), st) := by
  rw [rwStmt]
  rw [exportDefinerParts_pos ctx.slots r e c _ hr he]
  simp only [exportDeclsOfProps, exportEntryOf, bodyVar, exportDeclOf]
  simp [hfoo]

set_option maxHeartbeats 1000000 in
theorem export_definer_rewrite_witness :
    rwStmt demoCtx [] none [] (.exprStmt (.call
      (.member (.ident "n") (.ident "d") false)
      (.cons (.ident "t") (.cons (.objE (.cons
        (.objProp (.ident "foo") (.arrow false .nil (.ident "bar")))
        (.cons (.objProp (.ident "default")
          (.arrow false .nil (.ident "baz"))) .nil))) .nil))))
    = (.cons (.exportNamedDecl (.cons (.exportSpec "bar" "foo") .nil))
        (.cons (.exportDefaultDecl (.ident "baz")) .nil), []) :=
  export_definer_rewrite demoCtx [] none [] "n" "t" "foo" "bar" "baz" false
    rfl rfl (by decide)

set_option maxHeartbeats 1000000 in
/-- C3: a require call that is the initializer of a variable declarator in
an ESM-classified module removes the declarator and inserts an import
declaration before the enclosing statement — a namespace import when the
imported module (as recorded in the chunk module mapping after pass 1)
lacks a default export and a default import when it has one; in a
CommonJS-classified module the declarator instead keeps a plain
require-call initializer. -/
theorem import_declarator_rewrite (ctx : RwCtx) (bound : List String)
    (asyncF : Option Bool) (st : RMap) (kind x nreq : String) (mid : Nat)
    (hn : getSlot ctx.slots 2 = some nreq) (hb : nreq ∉ bound) :
    (ctx.isCJS = false →
      hasDefaultOf ctx.cmods
        (resolveModule (.str (toString mid)) ctx.mts).1 = false →
      rwStmt ctx bound asyncF st (.varDecl kind (.cons (.declarator
        (.ident x) (.cons (.call (.ident nreq) (.cons (.num mid) .nil))
          .nil)) .nil))
      = (.cons (.importDecl (.cons (.importNamespaceSpec x) .nil)
          (resolveModule (.str (toString mid)) ctx.mts).2) .nil, st)) ∧
    (ctx.isCJS = false →
      hasDefaultOf ctx.cmods
        (resolveModule (.str (toString mid)) ctx.mts).1 = true →
      rwStmt ctx bound asyncF st (.varDecl kind (.cons (.declarator
        (.ident x) (.cons (.call (.ident nreq) (.cons (.num mid) .nil))
          .nil)) .nil))
      = (.cons (.importDecl (.cons (.importDefaultSpec x) .nil)
          (resolveModule (.str (toString mid)) ctx.mts).2) .nil, st)) ∧
    (ctx.isCJS = true →
      rwStmt ctx bound asyncF st (.varDecl kind (.cons (.declarator
        (.ident x) (.cons (.call (.ident nreq) (.cons (.num mid) .nil))
          .nil)) .nil))
      = (.cons (.varDecl kind (.cons (.declarator (.ident x)
          (.cons (.call (.ident "require") (.cons (.str
            (resolveModule (.str (toString mid)) ctx.mts).2) .nil)) .nil))
          .nil)) .nil, st)) := by
  have hp := parseImportCall_pos bound ctx.slots nreq mid hn hb
  refine ⟨?_, ?_, ?_⟩
  · intro hc hd
    simp only [rwStmt, rwDecls, rwDeclarator, hp, hc, hd]
    simp [JList.append]
  · intro hc hd
    simp only [rwStmt, rwDecls, rwDeclarator, hp, hc, hd]
    simp [JList.append]
  · intro hc
    simp only [rwStmt, rwDecls, rwDeclarator, hp, hc]
    simp [JList.append]

set_option maxHeartbeats 1000000 in
theorem import_declarator_rewrite_witness :
    rwStmt demoCtx [] none [] (.varDecl "var" (.cons (.declarator
      (.ident "x") (.cons (.call (.ident "n") (.cons (.num 5) .nil))
        .nil)) .nil))
    = (.cons (.importDecl (.cons (.importNamespaceSpec "x") .nil) "./5")
        .nil, []) :=
  (import_declarator_rewrite demoCtx [] none [] "var" "x" "n" 5 rfl
    (by decide)).1 rfl rfl

set_option maxHeartbeats 1000000 in
/-- C4: a require call in expression position whose nearest enclosing
function is not asynchronous is rewritten to a synchronous `require(path)`
call and never to an await-of-dynamic-import expression, whatever the
enclosing module's CommonJS classification is. -/
theorem require_call_in_sync_function_is_require (ctx : RwCtx)
    (bound : List String) (st : RMap) (callee : J) (args : JList)
    (rid : String)
    (h : parseImportCall bound ctx.slots (.call callee args) = some rid) :
    rwExpr ctx bound (some false) st (.call callee args)
      = (.call (.ident "require")
          (.cons (.str (resolveModule (.str rid) ctx.mts).2) .nil),
        .nil, st) ∧
    ∀ (a : J) (ins : JList) (st2 : RMap),
      rwExpr ctx bound (some false) st (.call callee args)
        ≠ (.awaitE a, ins, st2) := by
  have hmain : rwExpr ctx bound (some false) st (.call callee args)
      = (.call (.ident "require")
          (.cons (.str (resolveModule (.str rid) ctx.mts).2) .nil),
        .nil, st) := by
    rw [rwExpr, h]
    simp [rwImportCallExpr]
  refine ⟨hmain, ?_⟩
  intro a ins st2 hcon
  rw [hmain] at hcon
  exact J.noConfusion (congrArg Prod.fst hcon)

set_option maxHeartbeats 1000000 in
theorem require_call_in_sync_function_is_require_witness :
    rwExpr { demoCtx with isCJS := true } [] (some false) []
      (.call (.ident "n") (.cons (.num 7) .nil))
      = (.call (.ident "require") (.cons (.str "./7") .nil), .nil, []) :=
  (require_call_in_sync_function_is_require { demoCtx with isCJS := true }
    [] [] (.ident "n") (.cons (.num 7) .nil) "7" rfl).1

set_option maxHeartbeats 1000000 in
/-- C10: an assignment to `<slot0>.exports` whose slot-0 name is bound in
the assignment's scope is not a default-export candidate:
`getDefaultExport` returns null without a warning, so the pass-1 visitor
leaves the classification state unchanged and the pass-2 visitor falls
through to plain child traversal instead of any export rewrite. -/
theorem shadowed_exports_assignment_inert (bound : List String)
    (slots : Slots) (n op : String) (p rhs : J) (c : Bool)
    (hslot : getSlot slots 0 = some n) (hb : n ∈ bound) :
    getDefaultExportW bound slots
      (.assign op (.member (.ident n) p c) rhs) = (none, false) ∧
    (∀ st : Bool × Bool, scanStep slots st
      (bound, .assign op (.member (.ident n) p c) rhs) = st) ∧
    (∀ (ctx : RwCtx) (asyncF : Option Bool) (rm : RMap), ctx.slots = slots →
      rwStmt ctx bound asyncF rm
        (.exprStmt (.assign op (.member (.ident n) p c) rhs)) =
      (let rl := rwExpr ctx bound asyncF rm (.member (.ident n) p c)
       let rr := rwExpr ctx bound asyncF rl.2.2 rhs
       (rl.2.1.append (rr.2.1.append (.cons (.exprStmt
         (.assign op rl.1 rr.1)) .nil)), rr.2.2))) := by
  have hge : getDefaultExportW bound slots
      (.assign op (.member (.ident n) p c) rhs) = (none, false) := by
    simp [getDefaultExportW, hb]
  refine ⟨hge, ?_, ?_⟩
  · intro st
    simp [scanStep, getDefaultExport, hge]
  · intro ctx asyncF rm hctx
    have hge2 : getDefaultExport bound ctx.slots
        (.assign op (.member (.ident n) p c) rhs) = none := by
      rw [hctx]
      simp [getDefaultExport, hge]
    rw [rwStmt, hge2]

set_option maxHeartbeats 1000000 in
theorem shadowed_exports_assignment_inert_witness :
    getDefaultExportW ["e"] demoSlots
      (.assign "=" (.member (.ident "e") (.ident "exports") false)
        (.num 1)) = (none, false) :=
  (shadowed_exports_assignment_inert ["e"] demoSlots "e" "="
    (.ident "exports") (.num 1) false rfl (by decide)).1

/-! ## Re-classification after rewriting: C9 -/

set_option maxHeartbeats 1000000 in
/-- C9 counterexample: the module `e.t = 5` (with factory parameters
`(e, t, n)`) scans as not-CommonJS with no default export; the pass-2
identifier rewrite then renames the unbound member property `t` — the
exports-slot name — to `exports`, so the rewritten tree reads
`e.exports = 5` and re-running the pass-1 scan on it reports a default
export: classification is not idempotent under rewriting. -/
theorem classification_not_idempotent :
    scanModule demoSlots demoProg = (false, false) ∧
    scanModule demoSlots (rewriteModule demoCtx demoProg)
      = (false, true) := ⟨rfl, rfl⟩

theorem noShapeL_append (slots : Slots) : ∀ (a b : JList),
    noShapeL slots (JList.append a b)
      = (noShapeL slots a && noShapeL slots b)
  | .nil, b => by simp [JList.append, noShapeL]
  | .cons h t, b => by
    simp [JList.append, noShapeL, noShapeL_append slots t b, Bool.and_assoc]

mutual
theorem cleanE_noShapeE (slots : Slots) : ∀ (e : J),
    cleanE slots e = true → noShapeE slots e = true
  | .ident _, _ => rfl
  | .num _, _ => rfl
  | .str _, _ => rfl
  | .objE p, h => cleanL_noShapeL slots p h
  | .objProp k v, h => by
    simp only [cleanE, Bool.and_eq_true] at h
    simp [noShapeE, cleanE_noShapeE slots k h.1, cleanE_noShapeE slots v h.2]
  | .otherProp _, _ => rfl
  | .call c a, h => by
    simp only [cleanE, Bool.and_eq_true] at h
    simp [noShapeE, cleanE_noShapeE slots c h.1, cleanL_noShapeL slots a h.2]
  | .member o p _, h => by
    simp only [cleanE, Bool.and_eq_true] at h
    simp [noShapeE, cleanE_noShapeE slots o h.1, cleanE_noShapeE slots p h.2]
  | .assign op l r, h => by
    simp only [cleanE, Bool.and_eq_true] at h
    simp [noShapeE, h.1.1, cleanE_noShapeE slots l h.1.2,
      cleanE_noShapeE slots r h.2]
  | .arrow _ params body, h => by
    simp only [cleanE, Bool.and_eq_true] at h
    simp [noShapeE, cleanL_noShapeL slots params h.1,
      cleanE_noShapeE slots body h.2]
  | .fnExpr _ params body, h => by
    simp only [cleanE, Bool.and_eq_true] at h
    simp [noShapeE, cleanL_noShapeL slots params h.1,
      cleanE_noShapeE slots body h.2]
  | .awaitE a, h => cleanE_noShapeE slots a h
  | .importE a, h => cleanE_noShapeE slots a h
  | .seqE es, h => cleanL_noShapeL slots es h
  | .exprStmt e, h => cleanE_noShapeE slots e h
  | .varDecl _ ds, h => cleanL_noShapeL slots ds h
  | .declarator id init, h => by
    simp only [cleanE, Bool.and_eq_true] at h
    simp [noShapeE, cleanE_noShapeE slots id h.1.2,
      cleanL_noShapeL slots init h.2]
  | .block b, h => cleanL_noShapeL slots b h
  | .ret a, h => cleanL_noShapeL slots a h
  | .importDecl s _, h => cleanL_noShapeL slots s h
  | .importDefaultSpec _, _ => rfl
  | .importNamespaceSpec _, _ => rfl
  | .importSpec _ _, _ => rfl
  | .exportDefaultDecl e, h => cleanE_noShapeE slots e h
  | .exportNamedDecl s, h => cleanL_noShapeL slots s h
  | .exportSpec _ _, _ => rfl
  | .otherNode _, _ => rfl
theorem cleanL_noShapeL (slots : Slots) : ∀ (l : JList),
    cleanL slots l = true → noShapeL slots l = true
  | .nil, _ => rfl
  | .cons h t, hc => by
    simp only [cleanL, Bool.and_eq_true] at hc
    simp [noShapeL, cleanE_noShapeE slots h hc.1, cleanL_noShapeL slots t hc.2]
end

/-- An assignment whose target is not the recognized member shape is
never a default-export candidate, in any scope. -/
theorem getDefaultExport_none_of_leftOK (bound : List String)
    (slots : Slots) (op : String) (l r : J)
    (hOK : assignLeftOK slots l = true) :
    getDefaultExport bound slots (.assign op l r) = none := by
  cases l
  case member o p c =>
    cases o
    case ident om =>
      by_cases hc : some om = getSlot slots 0
      · have hp : p.isIdentNamed "exports" = false := by
          simp only [assignLeftOK, hc] at hOK
          simpa using hOK
        simp [getDefaultExport, getDefaultExportW, hp]
      · simp [getDefaultExport, getDefaultExportW, hc]
    all_goals simp [getDefaultExport, getDefaultExportW]
  all_goals simp [getDefaultExport, getDefaultExportW]

/-- On a tree with no candidate-shaped assignment, the scan sees no
candidate at any collected assignment, in any ambient scope. -/
theorem collect_noShape (slots : Slots) : ∀ (N : Nat),
    (∀ (bound : List String) (e : J), jsizeE e ≤ N →
      noShapeE slots e = true →
      ∀ x ∈ collectAssignsE bound e, getDefaultExport x.1 slots x.2 = none) ∧
    (∀ (bound : List String) (l : JList), jsizeL l ≤ N →
      noShapeL slots l = true →
      ∀ x ∈ collectAssignsL bound l, getDefaultExport x.1 slots x.2 = none)
  := by
  intro N
  induction N with
  | zero =>
    constructor
    · intro bound e hsz
      exact absurd hsz (by cases e <;> simp [jsizeE])
    · intro bound l hsz hns x hx
      cases l with
      | nil => simp [collectAssignsL] at hx
      | cons h t => simp [jsizeL] at hsz
  | succ n ih =>
    obtain ⟨ihE, ihL⟩ := ih
    constructor
    · intro bound e hsz hns x hx
      cases e
      case objE props =>
        exact ihL bound props (by simp [jsizeE] at hsz; omega) hns x hx
      case objProp k v =>
        simp only [collectAssignsE, List.mem_append] at hx
        simp only [noShapeE, Bool.and_eq_true] at hns
        rcases hx with hx | hx
        · exact ihE bound k (by simp [jsizeE] at hsz; omega) hns.1 x hx
        · exact ihE bound v (by simp [jsizeE] at hsz; omega) hns.2 x hx
      case call c a =>
        simp only [collectAssignsE, List.mem_append] at hx
        simp only [noShapeE, Bool.and_eq_true] at hns
        rcases hx with hx | hx
        · exact ihE bound c (by simp [jsizeE] at hsz; omega) hns.1 x hx
        · exact ihL bound a (by simp [jsizeE] at hsz; omega) hns.2 x hx
      case member o p c =>
        simp only [collectAssignsE, List.mem_append] at hx
        simp only [noShapeE, Bool.and_eq_true] at hns
        rcases hx with hx | hx
        · exact ihE bound o (by simp [jsizeE] at hsz; omega) hns.1 x hx
        · exact ihE bound p (by simp [jsizeE] at hsz; omega) hns.2 x hx
      case assign op l r =>
        simp only [collectAssignsE, List.mem_cons, List.mem_append] at hx
        simp only [noShapeE, Bool.and_eq_true] at hns
        rcases hx with hx | hx | hx
        · subst hx
          exact getDefaultExport_none_of_leftOK bound slots op l r hns.1.1
        · exact ihE bound l (by simp [jsizeE] at hsz; omega) hns.1.2 x hx
        · exact ihE bound r (by simp [jsizeE] at hsz; omega) hns.2 x hx
      case arrow a params body =>
        simp only [noShapeE, Bool.and_eq_true] at hns
        cases body
        case block ss =>
          simp only [collectAssignsE] at hx
          exact ihL (bound ++ paramNames params ++ blockBound ss) ss
            (by simp [jsizeE] at hsz; omega)
            (by simpa [noShapeE] using hns.2) x hx
        all_goals (
          simp only [collectAssignsE] at hx
          exact ihE (bound ++ paramNames params) _
            (by simp [jsizeE] at hsz ⊢; omega) hns.2 x hx)
      case fnExpr a params body =>
        simp only [noShapeE, Bool.and_eq_true] at hns
        cases body
        case block ss =>
          simp only [collectAssignsE] at hx
          exact ihL (bound ++ paramNames params ++ blockBound ss) ss
            (by simp [jsizeE] at hsz; omega)
            (by simpa [noShapeE] using hns.2) x hx
        all_goals (
          simp only [collectAssignsE] at hx
          exact ihE (bound ++ paramNames params) _
            (by simp [jsizeE] at hsz ⊢; omega) hns.2 x hx)
      case awaitE a =>
        exact ihE bound a (by simp [jsizeE] at hsz; omega) hns x hx
      case importE a =>
        exact ihE bound a (by simp [jsizeE] at hsz; omega) hns x hx
      case seqE es =>
        exact ihL bound es (by simp [jsizeE] at hsz; omega) hns x hx
      case exprStmt e =>
        exact ihE bound e (by simp [jsizeE] at hsz; omega) hns x hx
      case varDecl k ds =>
        exact ihL bound ds (by simp [jsizeE] at hsz; omega) hns x hx
      case declarator id init =>
        simp only [collectAssignsE, List.mem_append] at hx
        simp only [noShapeE, Bool.and_eq_true] at hns
        rcases hx with hx | hx
        · exact ihE bound id (by simp [jsizeE] at hsz; omega) hns.1 x hx
        · exact ihL bound init (by simp [jsizeE] at hsz; omega) hns.2 x hx
      case block b =>
        exact ihL (bound ++ blockBound b) b
          (by simp [jsizeE] at hsz; omega) hns x hx
      case ret a =>
        exact ihL bound a (by simp [jsizeE] at hsz; omega) hns x hx
      case exportDefaultDecl e =>
        exact ihE bound e (by simp [jsizeE] at hsz; omega) hns x hx
      all_goals simp [collectAssignsE] at hx
    · intro bound l hsz hns x hx
      cases l with
      | nil => simp [collectAssignsL] at hx
      | cons h t =>
        simp only [collectAssignsL, List.mem_append] at hx
        simp only [noShapeL, Bool.and_eq_true] at hns
        rcases hx with hx | hx
        · exact ihE bound h (by simp [jsizeL] at hsz; omega) hns.1 x hx
        · exact ihL bound t (by simp [jsizeL] at hsz; omega) hns.2 x hx

theorem foldl_scanStep_none (slots : Slots) :
    ∀ (l : List (List String × J)) (st : Bool × Bool),
    (∀ x ∈ l, getDefaultExport x.1 slots x.2 = none) →
    l.foldl (scanStep slots) st = st
  | [], _, _ => rfl
  | a :: t, st, h => by
    have h1 : scanStep slots st a = st := by
      simp [scanStep, h a (by simp)]
    rw [List.foldl_cons, h1]
    exact foldl_scanStep_none slots t st fun x hx => h x (by simp [hx])

/-- A module tree with no candidate-shaped assignment scans as
not-CommonJS with no default export. -/
theorem scanModule_of_noShape (slots : Slots) (prog : JList)
    (h : noShapeL slots prog = true) :
    scanModule slots prog = (false, false) := by
  apply foldl_scanStep_none
  intro x hx
  exact (collect_noShape slots (jsizeL prog)).2 (blockBound prog) prog
    le_rfl h x hx

theorem rwIdent_id (ctx : RwCtx) (bound : List String) (n : String)
    (h : ¬some n = getSlot ctx.slots 1) : rwIdent ctx bound [] n = n := by
  simp [rwIdent, rmapGet, h]

theorem isIdentNamed_false_of_ne (e : J) (s : String)
    (h : ∀ n, e ≠ J.ident n) : e.isIdentNamed s = false := by
  cases e <;> simp [J.isIdentNamed]
  case ident nn => exact absurd rfl (h nn)

theorem assignLeftOK_member_nonident (slots : Slots) (a b : J) (c : Bool)
    (h : ∀ n, a ≠ J.ident n) : assignLeftOK slots (.member a b c) = true := by
  cases a <;> simp [assignLeftOK]
  case ident nn => exact absurd rfl (h nn)

theorem rwExprOK_arrow_nonblock (ctx : RwCtx) (bound : List String)
    (asyncF : Option Bool) (aa : Bool) (params : JList) (body : J)
    (heq : rwExpr ctx bound asyncF [] (.arrow aa params body)
      = (.arrow aa params
          (rwExpr ctx (bound ++ paramNames params) (some aa) [] body).1,
        (rwExpr ctx (bound ++ paramNames params) (some aa) [] body).2.1,
        (rwExpr ctx (bound ++ paramNames params) (some aa) [] body).2.2))
    (hparams : noShapeL ctx.slots params = true)
    (hb : rwExprOK ctx (bound ++ paramNames params) (some aa) body) :
    rwExprOK ctx bound asyncF (.arrow aa params body) := by
  unfold rwExprOK
  simp only [heq]
  exact ⟨by simp [noShapeE, hparams, hb.1], hb.2.1, hb.2.2.1,
    by simp, by simp, fun h2 => by simp [assignLeftOK]⟩

theorem rwDeclaratorOK_generic (ctx : RwCtx) (bound : List String)
    (asyncF : Option Bool) (i ie : J)
    (heq : rwDeclarator ctx bound asyncF [] (.declarator i (.cons ie .nil))
      = (.cons (.declarator i
          (.cons (rwExpr ctx bound asyncF [] ie).1 .nil)) .nil,
        (rwExpr ctx bound asyncF [] ie).2.1,
        (rwExpr ctx bound asyncF [] ie).2.2))
    (hid : noShapeE ctx.slots i = true)
    (he : rwExprOK ctx bound asyncF ie) :
    rwDeclaratorOK ctx bound asyncF (.declarator i (.cons ie .nil)) := by
  unfold rwDeclaratorOK
  simp only [heq]
  exact ⟨by simp [noShapeL, noShapeE, hid, he.1], he.2.1, he.2.2.1⟩

theorem rwStmtOK_exprStmt_generic (ctx : RwCtx) (bound : List String)
    (asyncF : Option Bool) (e : J)
    (heq : rwStmt ctx bound asyncF [] (.exprStmt e)
      = ((rwExpr ctx bound asyncF [] e).2.1.append
          (.cons (.exprStmt (rwExpr ctx bound asyncF [] e).1) .nil),
        (rwExpr ctx bound asyncF [] e).2.2))
    (he : rwExprOK ctx bound asyncF e) :
    rwStmtOK ctx bound asyncF (.exprStmt e) := by
  unfold rwStmtOK
  simp only [heq]
  exact ⟨by simp [noShapeL_append, noShapeL, noShapeE, he.1, he.2.1],
    he.2.2.1⟩

theorem rwExprOK_fnExpr_nonblock (ctx : RwCtx) (bound : List String)
    (asyncF : Option Bool) (aa : Bool) (params : JList) (body : J)
    (heq : rwExpr ctx bound asyncF [] (.fnExpr aa params body)
      = (.fnExpr aa params
          (rwExpr ctx (bound ++ paramNames params) (some aa) [] body).1,
        (rwExpr ctx (bound ++ paramNames params) (some aa) [] body).2.1,
        (rwExpr ctx (bound ++ paramNames params) (some aa) [] body).2.2))
    (hparams : noShapeL ctx.slots params = true)
    (hb : rwExprOK ctx (bound ++ paramNames params) (some aa) body) :
    rwExprOK ctx bound asyncF (.fnExpr aa params body) := by
  unfold rwExprOK
  simp only [heq]
  exact ⟨by simp [noShapeE, hparams, hb.1], hb.2.1, hb.2.2.1,
    by simp, by simp, fun h2 => by simp [assignLeftOK]⟩

theorem noShapeE_rwImportCallExpr (slots : Slots) (ctx : RwCtx)
    (asyncF : Option Bool) (rid : String) :
    noShapeE slots (rwImportCallExpr ctx asyncF rid) = true := by
  unfold rwImportCallExpr
  by_cases hc : ctx.isCJS = true <;> by_cases ha : asyncF = some false <;>
    simp [hc, ha, noShapeE, noShapeL]

theorem assignLeftOK_rwImportCallExpr (slots : Slots) (ctx : RwCtx)
    (asyncF : Option Bool) (rid : String) :
    assignLeftOK slots (rwImportCallExpr ctx asyncF rid) = true := by
  unfold rwImportCallExpr
  by_cases hc : ctx.isCJS = true <;> by_cases ha : asyncF = some false <;>
    simp [hc, ha, assignLeftOK]

theorem rwImportCallExpr_ne_ident (ctx : RwCtx) (asyncF : Option Bool)
    (rid n : String) : rwImportCallExpr ctx asyncF rid ≠ .ident n := by
  unfold rwImportCallExpr
  by_cases hc : ctx.isCJS = true <;> by_cases ha : asyncF = some false <;>
    simp [hc, ha]

theorem rwImportCallExpr_ne_member (ctx : RwCtx) (asyncF : Option Bool)
    (rid : String) (a b : J) (c : Bool) :
    rwImportCallExpr ctx asyncF rid ≠ .member a b c := by
  unfold rwImportCallExpr
  by_cases hc : ctx.isCJS = true <;> by_cases ha : asyncF = some false <;>
    simp [hc, ha]

theorem noShapeL_exportDecls (slots : Slots) : ∀ (props : JList),
    noShapeL slots (exportDeclsOfProps props) = true
  | .nil => rfl
  | .cons p rest => by
    cases he : exportEntryOf p with
    | none =>
      simpa [exportDeclsOfProps, he] using noShapeL_exportDecls slots rest
    | some en =>
      simp only [exportDeclsOfProps, he]
      simp [noShapeL, noShapeL_exportDecls slots rest, exportDeclOf]
      split <;> simp [noShapeE, noShapeL]

theorem rwExprOK_unchanged (ctx : RwCtx) (bound : List String)
    (asyncF : Option Bool) (e : J)
    (hrw : rwExpr ctx bound asyncF [] e = (e, .nil, []))
    (hns : noShapeE ctx.slots e = true) : rwExprOK ctx bound asyncF e := by
  unfold rwExprOK
  rw [hrw]
  exact ⟨hns, rfl, rfl, fun n h => h, fun a b cc h => ⟨a, b, h⟩, fun h => h⟩

theorem rwStmtOK_unchanged (ctx : RwCtx) (bound : List String)
    (asyncF : Option Bool) (s : J)
    (hrw : rwStmt ctx bound asyncF [] s = (.cons s .nil, []))
    (hns : noShapeE ctx.slots s = true) : rwStmtOK ctx bound asyncF s := by
  unfold rwStmtOK
  rw [hrw]
  exact ⟨by simp [noShapeL, hns], rfl⟩

theorem rwDeclaratorOK_unchanged (ctx : RwCtx) (bound : List String)
    (asyncF : Option Bool) (d : J)
    (hrw : rwDeclarator ctx bound asyncF [] d = (.cons d .nil, .nil, []))
    (hns : noShapeE ctx.slots d = true) : rwDeclaratorOK ctx bound asyncF d := by
  unfold rwDeclaratorOK
  rw [hrw]
  exact ⟨by simp [noShapeL, hns], rfl, rfl⟩

set_option maxHeartbeats 4000000 in
theorem rw_preserves_noShape (ctx : RwCtx) : ∀ (N : Nat),
    (∀ (bound : List String) (asyncF : Option Bool) (e : J), jsizeE e ≤ N →
      cleanE ctx.slots e = true → rwExprOK ctx bound asyncF e) ∧
    (∀ (bound : List String) (asyncF : Option Bool) (l : JList),
      jsizeL l ≤ N → cleanL ctx.slots l = true →
      rwExprListOK ctx bound asyncF l) ∧
    (∀ (bound : List String) (asyncF : Option Bool) (d : J), jsizeE d ≤ N →
      cleanE ctx.slots d = true → rwDeclaratorOK ctx bound asyncF d) ∧
    (∀ (bound : List String) (asyncF : Option Bool) (l : JList),
      jsizeL l ≤ N → cleanL ctx.slots l = true →
      rwDeclsOK ctx bound asyncF l) ∧
    (∀ (bound : List String) (asyncF : Option Bool) (s : J), jsizeE s ≤ N →
      cleanE ctx.slots s = true → rwStmtOK ctx bound asyncF s) ∧
    (∀ (bound : List String) (asyncF : Option Bool) (l : JList),
      jsizeL l ≤ N → cleanL ctx.slots l = true →
      rwStmtsOK ctx bound asyncF l) := by
  intro N
  induction N with
  | zero =>
    refine ⟨?_, ?_, ?_, ?_, ?_, ?_⟩
    · intro bound asyncF e hsz
      exact absurd hsz (by cases e <;> simp [jsizeE])
    · intro bound asyncF l hsz hcl
      cases l with
      | nil => exact ⟨rfl, rfl, rfl⟩
      | cons h t => simp [jsizeL] at hsz
    · intro bound asyncF d hsz
      exact absurd hsz (by cases d <;> simp [jsizeE])
    · intro bound asyncF l hsz hcl
      cases l with
      | nil => exact ⟨rfl, rfl, rfl⟩
      | cons h t => simp [jsizeL] at hsz
    · intro bound asyncF s hsz
      exact absurd hsz (by cases s <;> simp [jsizeE])
    · intro bound asyncF l hsz hcl
      cases l with
      | nil => exact ⟨rfl, rfl⟩
      | cons h t => simp [jsizeL] at hsz
  | succ n ih =>
    obtain ⟨ihE, ihEL, ihD, ihDL, ihS, ihSL⟩ := ih
    refine ⟨?_, ?_, ?_, ?_, ?_, ?_⟩
    -- rwExpr
    · intro bound asyncF e hsz hcl
      cases e
      case ident nm =>
        have hid : rwIdent ctx bound [] nm = nm :=
          rwIdent_id ctx bound nm (by simpa [cleanE] using hcl)
        exact rwExprOK_unchanged ctx bound asyncF (.ident nm)
          (by simp [rwExpr, hid]) (cleanE_noShapeE _ _ hcl)
      case objE props =>
        have hp := ihEL bound asyncF props (by simp [jsizeE] at hsz; omega)
          hcl
        unfold rwExprOK
        simp only [rwExpr]
        refine ⟨by simp [noShapeE, hp.1], hp.2.1, hp.2.2, by simp, by simp,
          by intro h2; simp [assignLeftOK]⟩
      case objProp k v =>
        simp only [cleanE, Bool.and_eq_true] at hcl
        have hk := ihE bound asyncF k (by simp [jsizeE] at hsz; omega) hcl.1
        unfold rwExprOK
        simp only [rwExpr]
        rw [hk.2.2.1]
        have hv := ihE bound asyncF v (by simp [jsizeE] at hsz; omega) hcl.2
        refine ⟨by simp [noShapeE, hk.1, hv.1],
          by simp [noShapeL_append, hk.2.1, hv.2.1], hv.2.2.1, by simp,
          by simp, by intro h2; simp [assignLeftOK]⟩
      case call callee args =>
        cases hpi : parseImportCall bound ctx.slots (.call callee args) with
        | some rid =>
          unfold rwExprOK
          simp only [rwExpr, hpi]
          refine ⟨noShapeE_rwImportCallExpr _ _ _ _, rfl, trivial, ?_, ?_, ?_⟩
          · intro nm h2
            exact absurd h2 (rwImportCallExpr_ne_ident _ _ _ _)
          · intro a b cc h2
            exact absurd h2 (rwImportCallExpr_ne_member _ _ _ _ _ _)
          · intro h2
            exact assignLeftOK_rwImportCallExpr _ _ _ _
        | none =>
          simp only [cleanE, Bool.and_eq_true] at hcl
          have hc := ihE bound asyncF callee
            (by simp [jsizeE] at hsz; omega) hcl.1
          unfold rwExprOK
          simp only [rwExpr, hpi]
          rw [hc.2.2.1]
          have ha := ihEL bound asyncF args (by simp [jsizeE] at hsz; omega)
            hcl.2
          refine ⟨by simp [noShapeE, hc.1, ha.1],
            by simp [noShapeL_append, hc.2.1, ha.2.1], ha.2.2, by simp,
            by simp, by intro h2; simp [assignLeftOK]⟩
      case member o p c =>
        simp only [cleanE, Bool.and_eq_true] at hcl
        have ho := ihE bound asyncF o (by simp [jsizeE] at hsz; omega) hcl.1
        unfold rwExprOK
        simp only [rwExpr]
        rw [ho.2.2.1]
        have hp := ihE bound asyncF p (by simp [jsizeE] at hsz; omega) hcl.2
        refine ⟨by simp [noShapeE, ho.1, hp.1],
          by simp [noShapeL_append, ho.2.1, hp.2.1], hp.2.2.1, by simp,
          ?_, ?_⟩
        · intro a b cc h2
          injection h2 with h2a h2b h2c
          exact ⟨o, p, by rw [h2c]⟩
        · intro hOK
          cases o
          case ident om =>
            have hom : rwIdent ctx bound [] om = om :=
              rwIdent_id ctx bound om (by simpa [cleanE] using hcl.1)
            rw [show (rwExpr ctx bound asyncF [] (.ident om)).1
              = .ident om by simp [rwExpr, hom]]
            cases hrp : (rwExpr ctx bound asyncF [] p).1
            case ident nn =>
              have hpn : p = J.ident nn := hp.2.2.2.1 nn hrp
              rw [hpn] at hOK
              exact hOK
            all_goals simp [assignLeftOK, J.isIdentNamed]
          all_goals
            exact assignLeftOK_member_nonident _ _ _ _
              (fun nn h2 => absurd (ho.2.2.2.1 nn h2) (by simp))
      case assign op l r =>
        simp only [cleanE, Bool.and_eq_true] at hcl
        have hge : getDefaultExport bound ctx.slots (.assign op l r) = none :=
          getDefaultExport_none_of_leftOK bound ctx.slots op l r hcl.1.1
        have hl := ihE bound asyncF l (by simp [jsizeE] at hsz; omega)
          hcl.1.2
        unfold rwExprOK
        simp only [rwExpr, hge]
        rw [hl.2.2.1]
        have hr := ihE bound asyncF r (by simp [jsizeE] at hsz; omega) hcl.2
        refine ⟨?_, by simp [noShapeL_append, hl.2.1, hr.2.1], hr.2.2.1,
          by simp, by simp, by intro h2; simp [assignLeftOK]⟩
        simp [noShapeE, hl.1, hr.1, hl.2.2.2.2.2 hcl.1.1]
      case arrow aa params body =>
        simp only [cleanE, Bool.and_eq_true] at hcl
        have hszb : jsizeE body ≤ n := by simp [jsizeE] at hsz; omega
        cases body
        case block ss =>
          have hs := ihSL (bound ++ paramNames params ++ blockBound ss)
            (some aa) ss (by simp [jsizeE] at hszb; omega)
            (by simpa [cleanE] using hcl.2)
          unfold rwExprOK
          simp only [rwExpr]
          refine ⟨?_, rfl, hs.2, by simp, by simp,
            by intro h2; simp [assignLeftOK]⟩
          have hs1 := hs.1
          rw [List.append_assoc] at hs1
          simp [noShapeE, hs1, cleanL_noShapeL _ _ hcl.1]
        all_goals (
          have hb := ihE (bound ++ paramNames params) (some aa) _ hszb hcl.2
          exact rwExprOK_arrow_nonblock ctx bound asyncF aa params _
            (by first | rfl | simp [rwExpr]) (cleanL_noShapeL _ _ hcl.1) hb)
      case fnExpr aa params body =>
        simp only [cleanE, Bool.and_eq_true] at hcl
        have hszb : jsizeE body ≤ n := by simp [jsizeE] at hsz; omega
        cases body
        case block ss =>
          have hs := ihSL (bound ++ paramNames params ++ blockBound ss)
            (some aa) ss (by simp [jsizeE] at hszb; omega)
            (by simpa [cleanE] using hcl.2)
          unfold rwExprOK
          simp only [rwExpr]
          refine ⟨?_, rfl, hs.2, by simp, by simp,
            by intro h2; simp [assignLeftOK]⟩
          have hs1 := hs.1
          rw [List.append_assoc] at hs1
          simp [noShapeE, hs1, cleanL_noShapeL _ _ hcl.1]
        all_goals (
          have hb := ihE (bound ++ paramNames params) (some aa) _ hszb hcl.2
          exact rwExprOK_fnExpr_nonblock ctx bound asyncF aa params _
            (by first | rfl | simp [rwExpr]) (cleanL_noShapeL _ _ hcl.1) hb)
      case awaitE a =>
        have hb := ihE bound asyncF a (by simp [jsizeE] at hsz; omega) hcl
        unfold rwExprOK
        simp only [rwExpr]
        refine ⟨by simp [noShapeE, hb.1], hb.2.1, hb.2.2.1, by simp, by simp,
          by intro h2; simp [assignLeftOK]⟩
      case importE a =>
        have hb := ihE bound asyncF a (by simp [jsizeE] at hsz; omega) hcl
        unfold rwExprOK
        simp only [rwExpr]
        refine ⟨by simp [noShapeE, hb.1], hb.2.1, hb.2.2.1, by simp, by simp,
          by intro h2; simp [assignLeftOK]⟩
      case seqE es =>
        have hp := ihEL bound asyncF es (by simp [jsizeE] at hsz; omega) hcl
        unfold rwExprOK
        simp only [rwExpr]
        refine ⟨by simp [noShapeE, hp.1], hp.2.1, hp.2.2, by simp, by simp,
          by intro h2; simp [assignLeftOK]⟩
      all_goals (
        refine rwExprOK_unchanged ctx bound asyncF _ ?_
          (cleanE_noShapeE _ _ hcl)
        rfl)
    -- rwExprList
    · intro bound asyncF l hsz hcl
      cases l with
      | nil => exact ⟨rfl, rfl, rfl⟩
      | cons e rest =>
        simp only [cleanL, Bool.and_eq_true] at hcl
        have he := ihE bound asyncF e (by simp [jsizeL] at hsz; omega) hcl.1
        have hr := ihEL bound asyncF rest (by simp [jsizeL] at hsz; omega)
          hcl.2
        unfold rwExprListOK
        simp only [rwExprList]
        rw [he.2.2.1]
        exact ⟨by simp [noShapeL, he.1, hr.1],
          by simp [noShapeL_append, he.2.1, hr.2.1], hr.2.2⟩
    -- rwDeclarator
    · intro bound asyncF d hsz hcl
      cases d
      case declarator i ini =>
        cases ini with
        | nil =>
          refine rwDeclaratorOK_unchanged ctx bound asyncF _ ?_
            (cleanE_noShapeE _ _ hcl)
          rfl
        | cons ie rest =>
          cases rest with
          | cons f t =>
            cases ie
            case member mo mp mc =>
              cases mo <;>
                (refine rwDeclaratorOK_unchanged ctx bound asyncF _ ?_
                  (cleanE_noShapeE _ _ hcl)
                 rfl)
            all_goals (
              refine rwDeclaratorOK_unchanged ctx bound asyncF _ ?_
                (cleanE_noShapeE _ _ hcl)
              rfl)
          | nil =>
            simp only [cleanE, cleanL, Bool.and_eq_true, Bool.and_true]
              at hcl
            have hm := hcl.1.1
            have hclid : cleanE ctx.slots i = true := hcl.1.2
            have hclie : cleanE ctx.slots ie = true := hcl.2
            have hid : noShapeE ctx.slots i = true :=
              cleanE_noShapeE _ _ hclid
            have hszie : jsizeE ie ≤ n := by
              simp [jsizeE, jsizeL] at hsz; omega
            cases ie
            case call c args =>
              simp only [cleanE, Bool.and_eq_true] at hclie
              have hc := ihE bound asyncF c
                (by simp [jsizeE] at hszie; omega) hclie.1
              have ha := ihEL bound asyncF args
                (by simp [jsizeE] at hszie; omega) hclie.2
              cases hpi : parseImportCall bound ctx.slots (.call c args) with
              | some rid =>
                cases hcj : ctx.isCJS with
                | true =>
                  unfold rwDeclaratorOK
                  simp only [rwDeclarator, hpi, hcj]
                  refine ⟨?_, ?_, ?_⟩ <;>
                    simp [noShapeL, noShapeE, hid]
                | false =>
                  cases i
                  case ident x =>
                    by_cases hd : hasDefaultOf ctx.cmods
                        (resolveModule (.str rid) ctx.mts).1 <;>
                      simp [rwDeclaratorOK, rwDeclarator, hpi, hcj, hd,
                        noShapeL, noShapeE]
                  all_goals (
                    unfold rwDeclaratorOK
                    simp only [rwDeclarator, hpi, hcj]
                    rw [hc.2.2.1]
                    refine ⟨?_, by simp [noShapeL_append, hc.2.1, ha.2.1],
                      ha.2.2⟩
                    revert hid
                    simp [noShapeL, noShapeE, hc.1, ha.1])
              | none =>
                unfold rwDeclaratorOK
                simp only [rwDeclarator, hpi]
                rw [hc.2.2.1]
                refine ⟨?_, by simp [noShapeL_append, hc.2.1, ha.2.1],
                  ha.2.2⟩
                revert hid
                simp [noShapeL, noShapeE, hc.1, ha.1]
            case member mo mp mc =>
              cases mo
              case call c args => simp at hm
              all_goals (
                refine rwDeclaratorOK_generic ctx bound asyncF i _ ?_
                  hid (ihE bound asyncF _ hszie hclie)
                rfl)
            all_goals (
              refine rwDeclaratorOK_generic ctx bound asyncF i _ ?_
                hid (ihE bound asyncF _ hszie hclie)
              rfl)
      all_goals (
        refine rwDeclaratorOK_unchanged ctx bound asyncF _ ?_
          (cleanE_noShapeE _ _ hcl)
        rfl)
    -- rwDecls
    · intro bound asyncF l hsz hcl
      cases l with
      | nil => exact ⟨rfl, rfl, rfl⟩
      | cons d rest =>
        simp only [cleanL, Bool.and_eq_true] at hcl
        have hd := ihD bound asyncF d (by simp [jsizeL] at hsz; omega) hcl.1
        have hr := ihDL bound asyncF rest (by simp [jsizeL] at hsz; omega)
          hcl.2
        unfold rwDeclsOK
        simp only [rwDecls]
        rw [hd.2.2]
        exact ⟨by simp [noShapeL_append, hd.1, hr.1],
          by simp [noShapeL_append, hd.2.1, hr.2.1], hr.2.2⟩
    -- rwStmt
    · intro bound asyncF s hsz hcl
      cases s
      case exprStmt e =>
        have hclE : cleanE ctx.slots e = true := by simpa [cleanE] using hcl
        have hsze : jsizeE e ≤ n := by simp [jsizeE] at hsz; omega
        cases e
        case call callee args =>
          cases hed : exportDefinerParts ctx.slots (.call callee args) with
          | some props =>
            unfold rwStmtOK
            simp only [rwStmt, hed]
            exact ⟨noShapeL_exportDecls _ _, trivial⟩
          | none =>
            cases hpi : parseImportCall bound ctx.slots
                (.call callee args) with
            | some rid =>
              unfold rwStmtOK
              simp only [rwStmt, hed, hpi]
              exact ⟨by simp [noShapeL, noShapeE,
                noShapeE_rwImportCallExpr], trivial⟩
            | none =>
              simp only [cleanE, Bool.and_eq_true] at hclE
              have hc := ihE bound asyncF callee
                (by simp [jsizeE] at hsze; omega) hclE.1
              have ha := ihEL bound asyncF args
                (by simp [jsizeE] at hsze; omega) hclE.2
              unfold rwStmtOK
              simp only [rwStmt, hed, hpi]
              rw [hc.2.2.1]
              exact ⟨by simp [noShapeL_append, noShapeL, noShapeE,
                hc.2.1, ha.2.1, hc.1, ha.1], ha.2.2⟩
        case assign op l r0 =>
          simp only [cleanE, Bool.and_eq_true] at hclE
          have hge : getDefaultExport bound ctx.slots (.assign op l r0)
              = none :=
            getDefaultExport_none_of_leftOK bound ctx.slots op l r0
              hclE.1.1
          have hl := ihE bound asyncF l
            (by simp [jsizeE] at hsze; omega) hclE.1.2
          have hr := ihE bound asyncF r0
            (by simp [jsizeE] at hsze; omega) hclE.2
          unfold rwStmtOK
          simp only [rwStmt, hge]
          rw [hl.2.2.1]
          exact ⟨by simp [noShapeL_append, noShapeL, noShapeE, hl.2.1,
            hr.2.1, hl.1, hr.1, hl.2.2.2.2.2 hclE.1.1], hr.2.2.1⟩
        all_goals (
          refine rwStmtOK_exprStmt_generic ctx bound asyncF _ ?_
            (ihE bound asyncF _ hsze hclE)
          rfl)
      case varDecl kind decls =>
        have hd := ihDL bound asyncF decls (by simp [jsizeE] at hsz; omega)
          (by simpa [cleanE] using hcl)
        unfold rwStmtOK
        simp only [rwStmt]
        cases hr1 : (rwDecls ctx bound asyncF [] decls).1 with
        | nil => exact ⟨by simpa using hd.2.1, by simpa using hd.2.2⟩
        | cons d0 ds =>
          have h1 : noShapeL ctx.slots (JList.cons d0 ds) = true := by
            rw [← hr1]; exact hd.1
          exact ⟨by simpa [noShapeL_append, noShapeL, noShapeE, hd.2.1]
              using h1,
            by simpa using hd.2.2⟩
      case ret ini =>
        cases ini with
        | nil =>
          refine rwStmtOK_unchanged ctx bound asyncF _ ?_
            (cleanE_noShapeE _ _ hcl)
          rfl
        | cons e rest =>
          cases rest with
          | cons f t =>
            refine rwStmtOK_unchanged ctx bound asyncF _ ?_
              (cleanE_noShapeE _ _ hcl)
            rfl
          | nil =>
            have hclE : cleanE ctx.slots e = true := by
              simpa [cleanE, cleanL] using hcl
            have he := ihE bound asyncF e
              (by simp [jsizeE, jsizeL] at hsz; omega) hclE
            unfold rwStmtOK
            simp only [rwStmt]
            exact ⟨by simp [noShapeL_append, noShapeL, noShapeE, he.1,
              he.2.1], he.2.2.1⟩
      case block body =>
        have hs := ihSL (bound ++ blockBound body) asyncF body
          (by simp [jsizeE] at hsz; omega) (by simpa [cleanE] using hcl)
        unfold rwStmtOK
        simp only [rwStmt]
        exact ⟨by simp [noShapeL, noShapeE, hs.1], hs.2⟩
      all_goals (
        refine rwStmtOK_unchanged ctx bound asyncF _ ?_
          (cleanE_noShapeE _ _ hcl)
        rfl)
    -- rwStmts
    · intro bound asyncF l hsz hcl
      cases l with
      | nil => exact ⟨rfl, rfl⟩
      | cons s rest =>
        simp only [cleanL, Bool.and_eq_true] at hcl
        have hs := ihS bound asyncF s (by simp [jsizeL] at hsz; omega) hcl.1
        have hr := ihSL bound asyncF rest (by simp [jsizeL] at hsz; omega)
          hcl.2
        unfold rwStmtsOK
        simp only [rwStmts]
        rw [hs.2]
        exact ⟨by simp [noShapeL_append, hs.1, hr.1], hr.2⟩

set_option maxHeartbeats 1000000 in
/-- C9 (amended): classification is idempotent under the pass-2 rewrite
for modules that are inert under its renaming mechanisms: if every
assignment target in the module avoids the `<module-slot>.exports`
candidate shape, the exports-slot name never occurs as an identifier, and
no declarator initializer has the import-accessor member-of-call shape,
then the pass-1 scan yields (CommonJS false, has-default-export false)
both before the rewrite and on the rewritten tree. -/
theorem classification_idempotent_for_inert_modules (ctx : RwCtx)
    (prog : JList) (h : cleanL ctx.slots prog = true) :
    scanModule ctx.slots prog = (false, false) ∧
    scanModule ctx.slots (rewriteModule ctx prog) = (false, false) := by
  refine ⟨scanModule_of_noShape _ _ (cleanL_noShapeL ctx.slots prog h), ?_⟩
  have hrw := (rw_preserves_noShape ctx (jsizeL prog)).2.2.2.2.2
    (blockBound prog) none prog le_rfl h
  simp only [rewriteModule]
  exact scanModule_of_noShape _ _ hrw.1

set_option maxHeartbeats 1000000 in
/-- Witness: the module `n(3)` — one plain require call, no assignment,
no occurrence of the exports-slot name `t` — is inert; the amended
theorem applies to it and both scans yield (false, false), although the
rewrite does replace the call. -/
theorem classification_idempotent_for_inert_modules_witness :
    cleanL demoCtx.slots (.cons (.exprStmt (.call (.ident "n")
      (.cons (.num 3) .nil))) .nil) = true ∧
    scanModule demoCtx.slots (.cons (.exprStmt (.call (.ident "n")
      (.cons (.num 3) .nil))) .nil) = (false, false) ∧
    scanModule demoCtx.slots (rewriteModule demoCtx (.cons (.exprStmt
      (.call (.ident "n") (.cons (.num 3) .nil))) .nil)) = (false, false) :=
  ⟨rfl, (classification_idempotent_for_inert_modules demoCtx
      (.cons (.exprStmt (.call (.ident "n") (.cons (.num 3) .nil))) .nil)
      rfl).1,
    (classification_idempotent_for_inert_modules demoCtx
      (.cons (.exprStmt (.call (.ident "n") (.cons (.num 3) .nil))) .nil)
      rfl).2⟩

end WebpackRe
